import Mathlib

/-!
Shallow embedding of the graph data core of the `service-map` repository:
the type registries (`src/constants/nodeTypes.ts`, `src/constants/edgeTypes.ts`),
the canonical `GraphNode`/`GraphEdge` model (`src/types`), the schema validator
(`src/utils/schema.ts`), the two import translators and the flat-snapshot
exporter (`src/utils/import.ts`, `src/utils/export.ts`), the two auto-layout
variants of `computeLayout` (`src/utils/layout.ts`, both revisions present in
the repository), and the `useGraph` CRUD operations.

JSON documents are modelled as an inductive value tree (`Json`); the
`JSON.parse` / `JSON.stringify` steps are modelled at the value level.
JavaScript numbers are modelled as `Int` (all coordinates in the program are
integral), and the random id generators are modelled by passing the generated
id as an explicit argument.
-/

namespace ServiceMap

/-- The seven node-type keys of the `NODE_TYPES` registry
(`src/constants/nodeTypes.ts`), in `Object.keys` insertion order. -/
inductive NodeTypeKey where
  | springBoot
  | nodejs
  | mongodb
  | kafka
  | redis
  | postgresql
  | external
deriving DecidableEq, Repr

/-- The string key of a node type, exactly as written in the registry. -/
def NodeTypeKey.key : NodeTypeKey → String
  | .springBoot => "spring-boot"
  | .nodejs => "nodejs"
  | .mongodb => "mongodb"
  | .kafka => "kafka"
  | .redis => "redis"
  | .postgresql => "postgresql"
  | .external => "external"

/-- `Object.keys(NODE_TYPES)` — the valid node type keys, in registry order. -/
def validNodeTypes : List String :=
  ["spring-boot", "nodejs", "mongodb", "kafka", "redis", "postgresql", "external"]

/-- Look a string up in the node-type registry (`VALID_NODE_TYPES.has`). -/
def NodeTypeKey.ofKey (s : String) : Option NodeTypeKey :=
  if s = "spring-boot" then some .springBoot
  else if s = "nodejs" then some .nodejs
  else if s = "mongodb" then some .mongodb
  else if s = "kafka" then some .kafka
  else if s = "redis" then some .redis
  else if s = "postgresql" then some .postgresql
  else if s = "external" then some .external
  else none

/-- The seven integration-type keys of the `EDGE_TYPES` registry
(`src/constants/edgeTypes.ts`), in `Object.keys` insertion order. -/
inductive IntegrationTypeKey where
  | rest
  | soap
  | grpc
  | graphql
  | pubsub
  | db
  | cache
deriving DecidableEq, Repr

/-- The string key of an integration type, exactly as written in the registry. -/
def IntegrationTypeKey.key : IntegrationTypeKey → String
  | .rest => "REST"
  | .soap => "SOAP"
  | .grpc => "gRPC"
  | .graphql => "GraphQL"
  | .pubsub => "pub/sub"
  | .db => "db"
  | .cache => "cache"

/-- `Object.keys(EDGE_TYPES)` — the valid integration type keys, in registry order. -/
def validEdgeTypes : List String :=
  ["REST", "SOAP", "gRPC", "GraphQL", "pub/sub", "db", "cache"]

/-- Look a string up in the integration-type registry (`VALID_EDGE_TYPES.has`). -/
def IntegrationTypeKey.ofKey (s : String) : Option IntegrationTypeKey :=
  if s = "REST" then some .rest
  else if s = "SOAP" then some .soap
  else if s = "gRPC" then some .grpc
  else if s = "GraphQL" then some .graphql
  else if s = "pub/sub" then some .pubsub
  else if s = "db" then some .db
  else if s = "cache" then some .cache
  else none

/-- Canonical graph node (`GraphNode` in `src/types`). The optional
`namespace` field is called `ns` here because `namespace` is a Lean keyword. -/
structure GraphNode where
  id : String
  name : String
  type : NodeTypeKey
  x : Int
  y : Int
  ns : Option String := none
  width : Option Int := none
  height : Option Int := none
deriving DecidableEq, Repr

/-- Canonical graph edge (`GraphEdge` in `src/types`). -/
structure GraphEdge where
  id : String
  source : String
  target : String
  type : Option IntegrationTypeKey := none
  label : Option String := none
deriving DecidableEq, Repr

/-- Parsed JSON values. Numbers are modelled as `Int`. -/
inductive Json where
  | null
  | bool (b : Bool)
  | num (n : Int)
  | str (s : String)
  | arr (elems : List Json)
  | obj (fields : List (String × Json))
deriving Repr

/-- `typeof v === 'object' && v !== null` — JS arrays and objects. -/
def Json.isObjectLike : Json → Bool
  | .arr _ => true
  | .obj _ => true
  | _ => false

/-- Property access `v.k` on a non-null value: `some` for an object field
that is present, `none` (JS `undefined`) otherwise. -/
def Json.getField : Json → String → Option Json
  | .obj fields, k => fields.lookup k
  | _, _ => none

/-- JS truthiness of a JSON value. -/
def Json.truthy : Json → Bool
  | .null => false
  | .bool b => b
  | .num n => n != 0
  | .str s => s != ""
  | _ => true

/-- JS `String(v)` coercion, as used in template literals for error messages. -/
def Json.display : Json → String
  | .null => "null"
  | .bool true => "true"
  | .bool false => "false"
  | .num n => toString n
  | .str s => s
  | .arr _ => ""
  | .obj _ => "[object Object]"

/-- `String(v)` where `v` may be JS `undefined` (a missing field). -/
def displayOpt : Option Json → String
  | none => "undefined"
  | some j => j.display

/-- The check `!(v) || typeof v !== 'string'` in positive form: returns the
string when `v` is a truthy (non-empty) string, `none` otherwise. -/
def reqString : Option Json → Option String
  | some (.str s) => if s = "" then none else some s
  | _ => none

/-- The check `typeof v === 'string'` in positive form (empty string allowed). -/
def optString : Option Json → Option String
  | some (.str s) => some s
  | _ => none

/-- The check `typeof v === 'number'` in positive form. -/
def asNum : Option Json → Option Int
  | some (.num n) => some n
  | _ => none

/-! ## Schema validator (`src/utils/schema.ts`) -/

/-- A structured validation error with a JSON-pointer-like path. -/
structure ValidationError where
  path : String
  message : String
deriving DecidableEq, Repr

/-- `validNodeTypes.join(', ')`. -/
def nodeTypesJoined : String := String.intercalate ", " validNodeTypes

/-- `validEdgeTypes.join(', ')`. -/
def edgeTypesJoined : String := String.intercalate ", " validEdgeTypes

/-- Validate one integration entry (the inner loop of `validateServiceSchema`). -/
def validateIntegration (iPath : String) (integ : Json) : List ValidationError :=
  if ¬ integ.isObjectLike then
    [⟨iPath, "Each integration must be an object."⟩]
  else
    ((match reqString (integ.getField "target") with
      | none => [⟨iPath ++ "/target", "\"target\" is required and must be a string."⟩]
      | some _ => []) : List ValidationError) ++
    ((match integ.getField "type" with
      | none => []
      | some t =>
        match t with
        | .str s =>
          if s ∈ validEdgeTypes then []
          else [⟨iPath ++ "/type",
            "Invalid integration type \"" ++ s ++ "\". Valid types: " ++ edgeTypesJoined ++ "."⟩]
        | _ => [⟨iPath ++ "/type",
            "Invalid integration type \"" ++ t.display ++ "\". Valid types: " ++ edgeTypesJoined ++ "."⟩]) :
      List ValidationError) ++
    ((match integ.getField "label" with
      | none => []
      | some l =>
        match l with
        | .str _ => []
        | _ => [⟨iPath ++ "/label", "\"label\" must be a string if provided."⟩]) :
      List ValidationError)

/-- Validate the integrations of one service entry, with running index. -/
def validateIntegrations (path : String) (j : Nat) : List Json → List ValidationError
  | [] => []
  | integ :: rest =>
    validateIntegration (path ++ "/integrations[" ++ toString j ++ "]") integ ++
    validateIntegrations path (j + 1) rest

/-- Validate one service entry. Returns its errors and the updated set of
seen ids (`seenIds` is threaded through the whole document). -/
def validateService (i : Nat) (seen : List String) (svc : Json) :
    List ValidationError × List String :=
  let path := "/services[" ++ toString i ++ "]"
  if ¬ svc.isObjectLike then
    ([⟨path, "Each service must be an object."⟩], seen)
  else
    let idRes : List ValidationError × List String :=
      match reqString (svc.getField "id") with
      | none => ([⟨path ++ "/id", "\"id\" is required and must be a string."⟩], seen)
      | some s =>
        (if s ∈ seen then [⟨path ++ "/id", "Duplicate service id \"" ++ s ++ "\"."⟩] else [],
         seen ++ [s])
    let idErrs := idRes.1
    let seen2 := idRes.2
    let nameErrs : List ValidationError :=
      match reqString (svc.getField "name") with
      | none => [⟨path ++ "/name", "\"name\" is required and must be a string."⟩]
      | some _ => []
    let typeErrs : List ValidationError :=
      match reqString (svc.getField "type") with
      | none => [⟨path ++ "/type", "\"type\" is required and must be a string."⟩]
      | some s =>
        if s ∈ validNodeTypes then []
        else [⟨path ++ "/type", "Invalid type \"" ++ s ++ "\". Valid types: " ++ nodeTypesJoined ++ "."⟩]
    let nsErrs : List ValidationError :=
      match svc.getField "namespace" with
      | none => []
      | some v =>
        match v with
        | .str _ => []
        | _ => [⟨path ++ "/namespace", "\"namespace\" must be a string if provided."⟩]
    let integErrs : List ValidationError :=
      match svc.getField "integrations" with
      | none => []
      | some v =>
        match v with
        | .arr items => validateIntegrations path 0 items
        | _ => [⟨path ++ "/integrations", "\"integrations\" must be an array."⟩]
    (idErrs ++ nameErrs ++ typeErrs ++ nsErrs ++ integErrs, seen2)

/-- The main loop of `validateServiceSchema` over the `services` array. -/
def validateServices (i : Nat) (seen : List String) : List Json → List ValidationError
  | [] => []
  | svc :: rest =>
    let (errs, seen2) := validateService i seen svc
    errs ++ validateServices (i + 1) seen2 rest

/-- `validateServiceSchema` (`src/utils/schema.ts`): validate a parsed JSON
value against the service-schema shape; the empty list signals validity. -/
def validateServiceSchema (data : Json) : List ValidationError :=
  if ¬ data.isObjectLike then
    [⟨"/", "Root must be a JSON object."⟩]
  else
    match data.getField "services" with
    | some (.arr svcs) => validateServices 0 [] svcs
    | _ => [⟨"/services", "\"services\" must be an array."⟩]

/-! ## Import translators (`src/utils/import.ts`) -/

/-- Result type for import operations. -/
structure ImportResult where
  nodes : List GraphNode
  edges : List GraphEdge
deriving DecidableEq, Repr

/-- Whether an `Except` computation succeeded (JS: the call did not throw). -/
def isOkE {α : Type} : Except String α → Bool
  | .ok _ => true
  | .error _ => false

/-- `v === null` (property access on `null` raises a `TypeError` in JS). -/
def Json.isNull : Json → Bool
  | .null => true
  | _ => false

/-- Build the edges of one service's `integrations` array (the inner loop of
`importServiceSchema`). `ctr` is the running `edgeCounter` used for the
generated `e-import-N` edge ids. -/
def buildIntegrations (svcId : String) (ctr : Nat) : List Json → Except String (List GraphEdge)
  | [] => .ok []
  | integ :: rest =>
    if integ.isNull then .error "TypeError: cannot read properties of null" else
    match reqString (integ.getField "target") with
    | none => .error ("Service \"" ++ svcId ++ "\": integration missing \"target\".")
    | some tgt =>
      let tJ := integ.getField "type"
      let truthyType := (tJ.map Json.truthy).getD false
      let validType : Option IntegrationTypeKey :=
        match tJ with
        | some (.str s) => IntegrationTypeKey.ofKey s
        | _ => none
      if truthyType ∧ validType.isNone then
        .error ("Service \"" ++ svcId ++ "\": invalid integration type \"" ++ displayOpt tJ ++
          "\". Valid types: " ++ edgeTypesJoined ++ ".")
      else do
        let restEdges ← buildIntegrations svcId (ctr + 1) rest
        .ok ({ id := "e-import-" ++ toString ctr, source := svcId, target := tgt,
               type := validType, label := optString (integ.getField "label") } :: restEdges)

/-- Build nodes and edges from the `services` array (the main construction
loop of `importServiceSchema`). `i` is the service index, `ctr` the running
edge counter. -/
def buildServices (i : Nat) (ctr : Nat) : List Json → Except String (List GraphNode × List GraphEdge)
  | [] => .ok ([], [])
  | svc :: rest =>
    if svc.isNull then .error "TypeError: cannot read properties of null" else
    match reqString (svc.getField "id") with
    | none => .error ("Service at index " ++ toString i ++ ": missing or invalid \"id\".")
    | some id =>
      match reqString (svc.getField "name") with
      | none => .error ("Service \"" ++ id ++ "\": missing or invalid \"name\".")
      | some name =>
        let tJ := svc.getField "type"
        let key : Option NodeTypeKey :=
          match tJ with
          | some (.str s) => NodeTypeKey.ofKey s
          | _ => none
        match key with
        | none =>
          .error ("Service \"" ++ id ++ "\": invalid type \"" ++ displayOpt tJ ++
            "\". Valid types: " ++ nodeTypesJoined ++ ".")
        | some ty => do
          let node : GraphNode :=
            { id := id, name := name, type := ty,
              ns := optString (svc.getField "namespace"), x := 0, y := 0 }
          let svcEdges ←
            match svc.getField "integrations" with
            | some (.arr items) => buildIntegrations id ctr items
            | _ => .ok []
          let (restNodes, restEdges) ← buildServices (i + 1) (ctr + svcEdges.length) rest
          .ok (node :: restNodes, svcEdges ++ restEdges)

/-- `importServiceSchema` (`src/utils/import.ts`) up to and excluding the
final `computeLayout` call: validation followed by node/edge construction.
The `JSON.parse` step is modelled at the value level (the argument is the
parsed document). -/
def importServiceSchemaCore (data : Json) : Except String ImportResult :=
  let errs := validateServiceSchema data
  if errs.isEmpty then
    match data.getField "services" with
    | some (.arr svcs) =>
      (buildServices 0 0 svcs).map (fun p => ⟨p.1, p.2⟩)
    | _ => .error "TypeError: services is not an array"
  else
    .error ("Validation errors:\n" ++
      String.intercalate "\n" (errs.map (fun e => e.path ++ ": " ++ e.message)))

/-- Convert one flat-snapshot node entry (the `nodes.map` callback of
`importSchemaExport`). -/
def nodeOfSchemaExport (i : Nat) (n : Json) : Except String GraphNode :=
  if n.isNull then .error "TypeError: cannot read properties of null" else
  match reqString (n.getField "id") with
  | none => .error ("Node at index " ++ toString i ++ ": missing \"id\".")
  | some id =>
    match reqString (n.getField "name") with
    | none => .error ("Node \"" ++ id ++ "\": missing \"name\".")
    | some name =>
      match asNum (n.getField "x"), asNum (n.getField "y") with
      | some x, some y =>
        let ty : NodeTypeKey :=
          match n.getField "type" with
          | some (.str s) => (NodeTypeKey.ofKey s).getD .external
          | _ => .external
        .ok { id := id, name := name, type := ty,
              ns := optString (n.getField "namespace"), x := x, y := y }
      | _, _ => .error ("Node \"" ++ id ++ "\": missing x/y coordinates.")

/-- Convert one flat-snapshot edge entry (the `edges.map` callback of
`importSchemaExport`). -/
def edgeOfSchemaExport (i : Nat) (e : Json) : Except String GraphEdge :=
  if e.isNull then .error "TypeError: cannot read properties of null" else
  match reqString (e.getField "id") with
  | none => .error ("Edge at index " ++ toString i ++ ": missing \"id\".")
  | some id =>
    match reqString (e.getField "source") with
    | none => .error ("Edge \"" ++ id ++ "\": missing \"source\".")
    | some source =>
      match reqString (e.getField "target") with
      | none => .error ("Edge \"" ++ id ++ "\": missing \"target\".")
      | some target =>
        let ty : Option IntegrationTypeKey :=
          match e.getField "type" with
          | some (.str s) => IntegrationTypeKey.ofKey s
          | _ => none
        .ok { id := id, source := source, target := target,
              type := ty, label := optString (e.getField "label") }

/-- `Array.prototype.map` with an index, over a fallible callback (a thrown
error aborts the whole `map`, first failure wins). -/
def mapIdxE (f : Nat → Json → Except String α) : Nat → List Json → Except String (List α)
  | _, [] => .ok []
  | i, j :: rest => do
    let a ← f i j
    let as ← mapIdxE f (i + 1) rest
    .ok (a :: as)

/-- `importSchemaExport` (`src/utils/import.ts`): import a flat-snapshot
document, restoring positions verbatim. The `JSON.parse` step is modelled at
the value level. -/
def importSchemaExport (data : Json) : Except String ImportResult :=
  if ¬ data.isObjectLike then .error "Invalid schema-export: expected a JSON object."
  else
    match data.getField "nodes" with
    | some (.arr ns) =>
      (match data.getField "edges" with
        | some (.arr es) => do
          let nodes ← mapIdxE nodeOfSchemaExport 0 ns
          let edges ← mapIdxE edgeOfSchemaExport 0 es
          .ok ⟨nodes, edges⟩
        | _ => .error "Invalid schema-export: missing \"edges\" array.")
    | _ => .error "Invalid schema-export: missing \"nodes\" array."

/-! ## Flat-snapshot exporter (`toSchemaExport` in `src/utils/export.ts`) -/

/-- Serialize one node for `toSchemaExport` (absent optional fields become
explicit `null`). -/
def nodeToJson (n : GraphNode) : Json :=
  .obj [("id", .str n.id), ("name", .str n.name), ("type", .str n.type.key),
        ("namespace", match n.ns with | some s => .str s | none => .null),
        ("x", .num n.x), ("y", .num n.y)]

/-- Serialize one edge for `toSchemaExport`. -/
def edgeToJson (e : GraphEdge) : Json :=
  .obj [("id", .str e.id), ("source", .str e.source), ("target", .str e.target),
        ("type", match e.type with | some t => .str t.key | none => .null),
        ("label", match e.label with | some s => .str s | none => .null)]

/-- `toSchemaExport` (`src/utils/export.ts`): the flat-snapshot serialization,
modelled at the JSON value level (`JSON.stringify` omitted). `exportedAt`
stands for the `new Date().toISOString()` timestamp. -/
def toSchemaExport (exportedAt : String) (nodes : List GraphNode) (edges : List GraphEdge) : Json :=
  .obj [("version", .str "1.0"), ("exportedAt", .str exportedAt),
        ("nodes", .arr (nodes.map nodeToJson)),
        ("edges", .arr (edges.map edgeToJson))]

/-! ## Layout engine (`src/utils/layout.ts`)

The repository contains two revisions of `computeLayout`, embedded here in
full: `LayoutBfs` (the revision whose BFS assigns each node its
first-discovered depth and enqueues every node at most once) and
`LayoutRelax` (the revision that relaxes a neighbour's depth to
`max(existing, current + 1)` and re-enqueues it on improvement). JS `Map`s
are modelled as insertion-ordered association lists. -/

/-- JS `Map.get`. -/
def aget [DecidableEq κ] : List (κ × α) → κ → Option α
  | [], _ => none
  | (k0, v) :: rest, k => if k0 = k then some v else aget rest k

/-- JS `Map.set`: overwrite in place, else append. -/
def aset [DecidableEq κ] : List (κ × α) → κ → α → List (κ × α)
  | [], k, v => [(k, v)]
  | (k0, v0) :: rest, k, v =>
    if k0 = k then (k0, v) :: rest else (k0, v0) :: aset rest k v

/-- `m.get(k)?.push(v)`: append to an existing entry's list, no-op when the
key is absent. -/
def apush [DecidableEq κ] : List (κ × List α) → κ → α → List (κ × List α)
  | [], _, _ => []
  | (k0, l) :: rest, k, v =>
    if k0 = k then (k0, l ++ [v]) :: rest else (k0, l) :: apush rest k v

/-- `m.get(k).push(v)` for the column map: append to an existing entry's
list, else append a fresh singleton entry (`if (!m.has(k)) m.set(k, [])`). -/
def gpush [DecidableEq κ] : List (κ × List α) → κ → α → List (κ × List α)
  | [], k, v => [(k, [v])]
  | (k0, l) :: rest, k, v =>
    if k0 = k then (k0, l ++ [v]) :: rest else (k0, l) :: gpush rest k v

/-- Step 1 of `computeLayout`: the forward adjacency map. -/
def buildOutgoing (nodes : List GraphNode) (edges : List GraphEdge) :
    List (String × List String) :=
  edges.foldl (fun m e => apush m e.source e.target)
    (nodes.foldl (fun m n => aset m n.id []) [])

/-- Step 1 of `computeLayout`: the reverse adjacency map. -/
def buildIncoming (nodes : List GraphNode) (edges : List GraphEdge) :
    List (String × List String) :=
  edges.foldl (fun m e => apush m e.target e.source)
    (nodes.foldl (fun m n => aset m n.id []) [])

/-- Step 2 of `computeLayout`: nodes with no incoming edges. -/
def sourceNodes (nodes : List GraphNode) (edges : List GraphEdge) : List GraphNode :=
  nodes.filter (fun n => ((aget (buildIncoming nodes edges) n.id).getD []).isEmpty)

/-- Default node width (`NODE_W` in `src/constants/nodeTypes.ts`). -/
def NODE_W : Int := 172

/-- Default node height (`NODE_H` in `src/constants/nodeTypes.ts`). -/
def NODE_H : Int := 58

/-- Minimum horizontal gap between columns (`COL_GAP`). -/
def COL_GAP : Int := 80

/-- Minimum vertical gap between nodes (`ROW_GAP`). -/
def ROW_GAP : Int := 40

/-- `a.namespace ?? ''`, the sort key of step 4. -/
def nsKey (n : GraphNode) : String := n.ns.getD ""

/-- Stable insert for the namespace sort (an element moves past another only
when its key is strictly smaller, matching a stable `Array.prototype.sort`
under the `localeCompare` comparator, modelled as string order). -/
def insByNs (n : GraphNode) : List GraphNode → List GraphNode
  | [] => [n]
  | m :: rest => if nsKey n ≤ nsKey m then n :: m :: rest else m :: insByNs n rest

/-- Step 4 of `computeLayout`: sort a column's nodes by namespace (stable). -/
def sortByNs (l : List GraphNode) : List GraphNode := l.foldr insByNs []

/-- Stable insert for sorting column keys ascending. -/
def insKey [LinearOrder κ] (k : κ) : List κ → List κ
  | [] => [k]
  | m :: rest => if k ≤ m then k :: m :: rest else m :: insKey k rest

/-- `[...columns.keys()].sort((a, b) => a - b)`. -/
def sortKeys [LinearOrder κ] (l : List κ) : List κ := l.foldr insKey []

namespace LayoutBfs

/-- The BFS worklist state of the first-visit revision: the queue, the
`head` cursor, and the depth map. -/
structure State where
  queue : List String
  head : Nat
  depth : List (String × Nat)
deriving Repr

/-- Inner loop over `outgoing.get(current)`: assign `currentDepth + 1` to
every not-yet-visited target and enqueue it. -/
def visit (cd : Nat) : List String → List String → List (String × Nat) →
    List String × List (String × Nat)
  | [], q, d => (q, d)
  | t :: rest, q, d =>
    if (aget d t).isSome then visit cd rest q d
    else visit cd rest (q ++ [t]) (aset d t (cd + 1))

/-- One iteration of the `while (head < queue.length)` loop. -/
def step (out : List (String × List String)) (s : State) : State :=
  if h : s.head < s.queue.length then
    let cur := s.queue.get ⟨s.head, h⟩
    let cd := (aget s.depth cur).getD 0
    let (q2, d2) := visit cd ((aget out cur).getD []) s.queue s.depth
    ⟨q2, s.head + 1, d2⟩
  else s

/-- Iterate the loop a given number of times. -/
def run (out : List (String × List String)) : Nat → State → State
  | 0, s => s
  | n + 1, s => run out n (step out s)

/-- The loop guard is false: the queue has been exhausted. -/
def State.done (s : State) : Prop := s.queue.length ≤ s.head

instance (s : State) : Decidable s.done := by unfold State.done; infer_instance

/-- Initial worklist state: every source node at depth 0, in node order. -/
def initState (nodes : List GraphNode) (edges : List GraphEdge) : State :=
  let sources := sourceNodes nodes edges
  ⟨sources.map (·.id), 0, sources.foldl (fun d n => aset d n.id 0) []⟩

/-- A fuel bound sufficient to exhaust the queue: the initial queue length
plus the total number of adjacency-list entries. -/
def fuelBound (nodes : List GraphNode) (edges : List GraphEdge) : Nat :=
  (initState nodes edges).queue.length +
    ((buildOutgoing nodes edges).map (·.2)).foldr (fun l acc => l.length + acc) 0

/-- The depth map after the BFS loop and the depth-0 fallback for nodes the
BFS never visited (disconnected nodes and cycle-only components). -/
def depthMap (nodes : List GraphNode) (edges : List GraphEdge) : List (String × Nat) :=
  let out := buildOutgoing nodes edges
  let final := run out (fuelBound nodes edges) (initState nodes edges)
  nodes.foldl (fun d n => if (aget d n.id).isSome then d else aset d n.id 0) final.depth

/-- `depth.get(node.id) ?? 0`, the column index of a node. -/
def depthAt (nodes : List GraphNode) (edges : List GraphEdge) (id : String) : Nat :=
  (aget (depthMap nodes edges) id).getD 0

/-- Step 5: place one column top to bottom, advancing `yOffset` by each
node's effective height plus `ROW_GAP`. -/
def placeColumn (x : Int) : Int → List GraphNode → List GraphNode
  | _, [] => []
  | y, n :: rest =>
    { n with x := x, y := y } :: placeColumn x (y + (n.height.getD NODE_H) + ROW_GAP) rest

/-- Step 5: place the columns left to right, advancing `xOffset` by each
column's maximum effective width plus `COL_GAP`. -/
def placeColumns (cols : List (Nat × List GraphNode)) : List Nat → Int → List GraphNode
  | [], _ => []
  | k :: rest, xOff =>
    let colNodes := (aget cols k).getD []
    let maxColW := colNodes.foldl (fun m n => max m (n.width.getD NODE_W)) NODE_W
    placeColumn xOff 60 colNodes ++ placeColumns cols rest (xOff + maxColW + COL_GAP)

/-- `computeLayout` (first-visit BFS revision of `src/utils/layout.ts`). -/
def computeLayout (nodes : List GraphNode) (edges : List GraphEdge) : List GraphNode :=
  if nodes.isEmpty then [] else
  let cols := nodes.foldl (fun cs n => gpush cs (depthAt nodes edges n.id) n) []
  let cols := cols.map (fun p => (p.1, sortByNs p.2))
  placeColumns cols (sortKeys (cols.map (·.1))) 60

end LayoutBfs

namespace LayoutRelax

/-- The worklist state of the relaxation revision; depths are JS numbers
(`-1` is used as the missing sentinel), modelled as `Int`. -/
structure State where
  queue : List String
  head : Nat
  depth : List (String × Int)
deriving Repr

/-- Inner loop over `outgoing.get(current)`: relax each target to
`currentDepth + 1` when that exceeds its current depth (`?? -1`), and
re-enqueue it. -/
def visit (cd : Int) : List String → List String → List (String × Int) →
    List String × List (String × Int)
  | [], q, d => (q, d)
  | t :: rest, q, d =>
    if cd + 1 > (aget d t).getD (-1) then visit cd rest (q ++ [t]) (aset d t (cd + 1))
    else visit cd rest q d

/-- One iteration of the `while (head < queue.length)` loop. -/
def step (out : List (String × List String)) (s : State) : State :=
  if h : s.head < s.queue.length then
    let cur := s.queue.get ⟨s.head, h⟩
    let cd := (aget s.depth cur).getD 0
    let (q2, d2) := visit cd ((aget out cur).getD []) s.queue s.depth
    ⟨q2, s.head + 1, d2⟩
  else s

/-- Iterate the loop a given number of times. -/
def run (out : List (String × List String)) : Nat → State → State
  | 0, s => s
  | n + 1, s => run out n (step out s)

/-- The loop guard is false: the queue has been exhausted. -/
def State.done (s : State) : Prop := s.queue.length ≤ s.head

instance (s : State) : Decidable s.done := by unfold State.done; infer_instance

/-- Initial worklist state: sources first at depth 0, then every remaining
node at depth 0 (the pre-loop fallback of this revision). -/
def initState (nodes : List GraphNode) (edges : List GraphEdge) : State :=
  let sources := sourceNodes nodes edges
  let d0 := sources.foldl (fun d n => aset d n.id 0) []
  let q0 := sources.map (·.id)
  let p := nodes.foldl
    (fun (p : List String × List (String × Int)) n =>
      if (aget p.2 n.id).isSome then p else (p.1 ++ [n.id], aset p.2 n.id 0))
    (q0, d0)
  ⟨p.1, 0, p.2⟩

/-- The `while` loop of this revision reaches its exit condition after some
finite number of iterations. -/
def Terminates (nodes : List GraphNode) (edges : List GraphEdge) : Prop :=
  ∃ n, (run (buildOutgoing nodes edges) n (initState nodes edges)).done

/-- The depth map after `fuel` iterations of the loop. -/
def depthMapFuel (fuel : Nat) (nodes : List GraphNode) (edges : List GraphEdge) :
    List (String × Int) :=
  (run (buildOutgoing nodes edges) fuel (initState nodes edges)).depth

/-- `depth.get(node.id) ?? 0` after `fuel` iterations. -/
def depthAtFuel (fuel : Nat) (nodes : List GraphNode) (edges : List GraphEdge)
    (id : String) : Int :=
  (aget (depthMapFuel fuel nodes edges) id).getD 0

/-- Step 5 of this revision: `y = 60 + row * (NODE_H + ROW_GAP)`. -/
def placeColumn (x : Int) (row : Nat) : List GraphNode → List GraphNode
  | [] => []
  | n :: rest =>
    { n with x := x, y := 60 + (row : Int) * (NODE_H + ROW_GAP) } :: placeColumn x (row + 1) rest

/-- Step 5 of this revision: `x = 60 + colIdx * (NODE_W + COL_GAP)`, where
`colIdx` is the depth value itself. -/
def placeColumns (cols : List (Int × List GraphNode)) : List Int → List GraphNode
  | [] => []
  | k :: rest =>
    placeColumn (60 + k * (NODE_W + COL_GAP)) 0 ((aget cols k).getD []) ++
      placeColumns cols rest

/-- `computeLayout` (relaxation revision of `src/utils/layout.ts`), with the
`while` loop cut off after `fuel` iterations (the loop does not terminate on
every input, see `LayoutRelax.Terminates`). -/
def computeLayoutFuel (fuel : Nat) (nodes : List GraphNode) (edges : List GraphEdge) :
    List GraphNode :=
  if nodes.isEmpty then [] else
  let dm := depthMapFuel fuel nodes edges
  let cols := nodes.foldl (fun cs n => gpush cs ((aget dm n.id).getD 0) n) []
  let cols := cols.map (fun p => (p.1, sortByNs p.2))
  placeColumns cols (sortKeys (cols.map (·.1)))

end LayoutRelax

/-- `importServiceSchema` including its final auto-layout step, using the
first-visit BFS revision of `computeLayout` (the revision that is total). -/
def importServiceSchema (data : Json) : Except String ImportResult :=
  (importServiceSchemaCore data).map
    (fun r => ⟨LayoutBfs.computeLayout r.nodes r.edges, r.edges⟩)

/-! ## Graph Model CRUD (`useGraph` in `src/hooks/useGraph.ts`) -/

/-- The kind of the currently selected canvas element. -/
inductive SelKind where
  | node
  | edge
deriving DecidableEq, Repr

/-- The current selection. -/
structure Selection where
  kind : SelKind
  id : String
deriving DecidableEq, Repr

/-- The state managed by `useGraph`: nodes, edges and the selection. -/
structure GraphState where
  nodes : List GraphNode
  edges : List GraphEdge
  selected : Option Selection := none
deriving DecidableEq, Repr

/-- `removeNode` (`useGraph`): remove a node by id and all connected edges,
clearing the selection when it pointed at the removed node. -/
def removeNode (s : GraphState) (nodeId : String) : GraphState :=
  { nodes := s.nodes.filter (fun n => n.id ≠ nodeId),
    edges := s.edges.filter (fun e => e.source ≠ nodeId ∧ e.target ≠ nodeId),
    selected :=
      match s.selected with
      | some sel => if sel.id = nodeId then none else some sel
      | none => none }

/-- `addEdge` (`useGraph`): append a new edge unless some existing edge
already connects the unordered pair in either direction. The random
`genId()` result is passed in as `newId`. -/
def addEdge (edges : List GraphEdge) (source target : String)
    (type : Option IntegrationTypeKey) (newId : String) : List GraphEdge :=
  if edges.any (fun e =>
      (e.source = source ∧ e.target = target) ∨ (e.source = target ∧ e.target = source)) then
    edges
  else
    edges ++ [{ id := newId, source := source, target := target, type := type,
                label := some "" }]

/-- The cascade in `onNodesChange` of the React Flow revision of `useGraph`:
drop every edge whose source or target is among the removed node ids. -/
def cascadeEdgeRemoval (removedIds : List String) (edges : List GraphEdge) : List GraphEdge :=
  edges.filter (fun e => ¬ removedIds.contains e.source ∧ ¬ removedIds.contains e.target)

/-! ## Spec-side definitions

These definitions follow the specification's words (longest path from a
zero-incoming-edge node, reachability from such a node) and are compared
against the embedded layout engine. -/

/-- Spec-side: `s` is the id of a node with no incoming edges. -/
def isSourceId (nodes : List GraphNode) (edges : List GraphEdge) (s : String) : Bool :=
  nodes.any (fun n => n.id == s) && edges.all (fun e => e.target != s)

/-- Spec-side: some path with exactly `k` edges leads from a
zero-incoming-edge node to `v`. -/
def hasSourcePathLen (nodes : List GraphNode) (edges : List GraphEdge) :
    Nat → String → Bool
  | 0, v => isSourceId nodes edges v
  | k + 1, v => edges.any (fun e => e.target == v && hasSourcePathLen nodes edges k e.source)

/-- Spec-side: the length of the longest path of at most `bound` edges from a
zero-incoming-edge node to `v` (0 when there is none). -/
def longestFromSource (nodes : List GraphNode) (edges : List GraphEdge)
    (bound : Nat) (v : String) : Nat :=
  (List.range (bound + 1)).foldl
    (fun acc k => if hasSourcePathLen nodes edges k v then k else acc) 0

/-- Spec-side: `id` is reachable from some node that has no incoming edges
(a path of zero or more edges exists). -/
inductive ReachesFromSource (nodes : List GraphNode) (edges : List GraphEdge) : String → Prop where
  | source (n : GraphNode) (hn : n ∈ nodes) (hs : ∀ e ∈ edges, e.target ≠ n.id) :
      ReachesFromSource nodes edges n.id
  | step (e : GraphEdge) (he : e ∈ edges) (hr : ReachesFromSource nodes edges e.source) :
      ReachesFromSource nodes edges e.target

/-- Erase the mutable position of a node (for frame statements: layout may
change only `x` and `y`). -/
def stripPos (n : GraphNode) : GraphNode := { n with x := 0, y := 0 }

/-! ## Concrete test inputs -/

/-- A bare test node with the given id. -/
def mkNode (i : String) : GraphNode :=
  { id := i, name := i, type := .nodejs, x := 0, y := 0 }

/-- A test edge. -/
def mkEdge (i s t : String) : GraphEdge := { id := i, source := s, target := t }

/-- Chain A→B→C→D. -/
def chainNodes : List GraphNode := [mkNode "A", mkNode "B", mkNode "C", mkNode "D"]

/-- Chain A→B→C→D. -/
def chainEdges : List GraphEdge :=
  [mkEdge "e1" "A" "B", mkEdge "e2" "B" "C", mkEdge "e3" "C" "D"]

/-- Diamond A→B→D, A→C→D. -/
def diamondNodes : List GraphNode := [mkNode "A", mkNode "B", mkNode "C", mkNode "D"]

/-- Diamond A→B→D, A→C→D. -/
def diamondEdges : List GraphEdge :=
  [mkEdge "e1" "A" "B", mkEdge "e2" "A" "C", mkEdge "e3" "B" "D", mkEdge "e4" "C" "D"]

/-- Shortcut triangle A→B→C plus A→C: the longest path to C has two edges,
while BFS first discovers C at depth 1. -/
def shortcutNodes : List GraphNode := [mkNode "A", mkNode "B", mkNode "C"]

/-- Shortcut triangle A→B→C plus A→C. -/
def shortcutEdges : List GraphEdge :=
  [mkEdge "e1" "A" "B", mkEdge "e2" "B" "C", mkEdge "e3" "A" "C"]

/-- A single node with a self-loop: a cycle with no external entry. -/
def loopNodes : List GraphNode := [mkNode "A"]

/-- A single node with a self-loop. -/
def loopEdges : List GraphEdge := [mkEdge "e1" "A" "A"]

/-- A two-node cycle A→B→A: no node has zero incoming edges. -/
def cycleNodes : List GraphNode := [mkNode "A", mkNode "B"]

/-- A two-node cycle A→B→A. -/
def cycleEdges : List GraphEdge := [mkEdge "e1" "A" "B", mkEdge "e2" "B" "A"]

/-- A service-schema document with exactly three independent violations:
a duplicate id, an invalid type, and an integration without a target. -/
def docThreeViolations : Json :=
  .obj [("services", .arr [
    .obj [("id", .str "a"), ("name", .str "A"), ("type", .str "nodejs")],
    .obj [("id", .str "a"), ("name", .str "B"), ("type", .str "bogus"),
          ("integrations", .arr [.obj [("label", .str "x")]])]])]

/-- A well-formed service-schema document (the spec's example scenario). -/
def docExample : Json :=
  .obj [("services", .arr [
    .obj [("id", .str "a"), ("name", .str "A"), ("type", .str "redis")],
    .obj [("id", .str "b"), ("name", .str "B"), ("type", .str "nodejs"),
          ("integrations", .arr [.obj [("target", .str "a"), ("type", .str "cache")]])]])]

/-- A service-schema document whose single integration targets an id that
matches no service. -/
def docDangling : Json :=
  .obj [("services", .arr [
    .obj [("id", .str "a"), ("name", .str "A"), ("type", .str "nodejs"),
          ("integrations", .arr [.obj [("target", .str "missing-id")]])]])]

/-- A node whose id is the empty string (falsy in JS). -/
def emptyIdNode : GraphNode :=
  { id := "", name := "A", type := .redis, x := 0, y := 0 }

/-- A snapshot node with every optional field populated. -/
def snapNodes : List GraphNode :=
  [{ id := "a", name := "Auth", type := .redis, x := 5, y := 7,
     ns := some "team", width := some 200 }]

/-- A snapshot edge with every optional field populated. -/
def snapEdges : List GraphEdge :=
  [{ id := "e", source := "a", target := "a", type := some .cache, label := some "" }]

/-- A flat-snapshot node entry with an id and name but no coordinates. -/
def nodeNoCoords : Json :=
  .obj [("id", .str "n1"), ("name", .str "N")]

/-- A flat-snapshot document containing `nodeNoCoords`. -/
def docNoCoords : Json :=
  .obj [("nodes", .arr [nodeNoCoords]), ("edges", .arr [])]

/-- A flat-snapshot node entry whose type is not a registry key. -/
def goodNodeJson : Json :=
  .obj [("id", .str "n1"), ("name", .str "N"), ("type", .str "bogus"),
        ("x", .num 1), ("y", .num 2)]

/-- A flat-snapshot edge entry whose type is not a registry key. -/
def badTypeEdgeJson : Json :=
  .obj [("id", .str "e1"), ("source", .str "a"), ("target", .str "b"),
        ("type", .str "bogus")]

/-- The number of adjacency-list targets not yet assigned a depth: the
potential that bounds the BFS worklist. -/
def unassigned (T : List String) (d : List (String × Nat)) : Nat :=
  T.countP (fun t => (aget d t).isNone)

/-- All strings stored in the adjacency lists of a map. -/
def outTargets (out : List (String × List String)) : List String :=
  out.flatMap (·.2)

/-! ## Theorems -/

/-- The relaxation loop peels steps from the outside as well. -/
theorem relax_run_succ (out : List (String × List String)) (n : Nat) (s : LayoutRelax.State) :
    LayoutRelax.run out (n + 1) s = LayoutRelax.step out (LayoutRelax.run out n s) := by
  induction n generalizing s with
  | zero => rfl
  | succ k ih =>
    show LayoutRelax.run out (k + 1) (LayoutRelax.step out s) = _
    rw [ih]
    rfl

set_option maxRecDepth 100000 in
/-- On the self-loop input, after `n` iterations of the relaxation loop the
queue holds `n + 1` copies of `A`, the cursor is at `n`, and `A`'s depth is
`n`: the loop never catches up with its own queue. -/
theorem relax_loop_state (n : Nat) :
    LayoutRelax.run (buildOutgoing loopNodes loopEdges) n
        (LayoutRelax.initState loopNodes loopEdges) =
      ⟨List.replicate (n + 1) "A", n, [("A", (n : Int))]⟩ := by
  induction n with
  | zero => rfl
  | succ k ih =>
    rw [relax_run_succ, ih]
    have hlt : k < (List.replicate (k + 1) "A").length := by simp
    simp only [LayoutRelax.step, hlt, dif_pos, List.get_eq_getElem, List.getElem_replicate]
    have hout : aget (buildOutgoing loopNodes loopEdges) "A" = some ["A"] := by decide
    have hd : aget [("A", (k : Int))] "A" = some (k : Int) := by simp [aget]
    simp only [hout, hd, Option.getD_some]
    simp only [LayoutRelax.visit, hd, Option.getD_some, gt_iff_lt]
    rw [if_pos (by omega)]
    simp only [LayoutRelax.visit, aset]
    rw [if_pos trivial, ← List.replicate_succ' (k + 1) "A"]
    simp [Nat.cast_succ]

/-- C2 (counterexample): on a single node with a self-loop — a finite node
and edge list forming a cycle — the `while` loop of the relaxation revision
of `computeLayout` never reaches its exit condition, so this revision of
`computeLayout` does not terminate on every input. -/
theorem C2_relax_nontermination : ¬ LayoutRelax.Terminates loopNodes loopEdges := by
  rintro ⟨n, hd⟩
  rw [relax_loop_state] at hd
  simp only [LayoutRelax.State.done, List.length_replicate] at hd
  omega

set_option maxRecDepth 400000 in
/-- C1 (counterexample): on the acyclic shortcut triangle A→B→C, A→C the
first-visit BFS revision of `computeLayout` does not assign every node the
length of the longest path from a zero-incoming-edge node: node C is placed
in column 1 although the longest path to it (A→B→C) has length 2. -/
theorem C1_bfs_depth_not_longest_path :
    ¬ ∀ n ∈ shortcutNodes, LayoutBfs.depthAt shortcutNodes shortcutEdges n.id =
        longestFromSource shortcutNodes shortcutEdges shortcutNodes.length n.id := by
  decide

set_option maxRecDepth 400000 in
/-- C1 (amended): the relaxation revision of `computeLayout` assigns
longest-path depths on the cited inputs (chain 0,1,2,3; diamond D at 2;
shortcut triangle C at 2), and its loop exhausts its queue on these acyclic
inputs; the first-visit BFS revision agrees on the chain (columns 0,1,2,3,
x = 60, 312, 564, 816) and the diamond (D in column 2), but assigns the
first-discovered depth in general (C at 1 on the shortcut triangle). -/
theorem C1_depth_examples :
    (chainNodes.map (fun n => LayoutBfs.depthAt chainNodes chainEdges n.id)) = [0, 1, 2, 3] ∧
    (chainNodes.map (fun n => LayoutRelax.depthAtFuel 50 chainNodes chainEdges n.id)) =
      [0, 1, 2, 3] ∧
    (LayoutRelax.run (buildOutgoing chainNodes chainEdges) 50
        (LayoutRelax.initState chainNodes chainEdges)).done ∧
    (LayoutBfs.computeLayout chainNodes chainEdges).map (fun n => (n.id, n.x)) =
      [("A", 60), ("B", 312), ("C", 564), ("D", 816)] ∧
    (LayoutRelax.computeLayoutFuel 50 chainNodes chainEdges).map (fun n => (n.id, n.x)) =
      [("A", 60), ("B", 312), ("C", 564), ("D", 816)] ∧
    LayoutBfs.depthAt diamondNodes diamondEdges "D" = 2 ∧
    LayoutRelax.depthAtFuel 50 diamondNodes diamondEdges "D" = 2 ∧
    (LayoutRelax.run (buildOutgoing diamondNodes diamondEdges) 50
        (LayoutRelax.initState diamondNodes diamondEdges)).done ∧
    longestFromSource diamondNodes diamondEdges 4 "D" = 2 ∧
    LayoutRelax.depthAtFuel 50 shortcutNodes shortcutEdges "C" = 2 ∧
    (LayoutRelax.run (buildOutgoing shortcutNodes shortcutEdges) 50
        (LayoutRelax.initState shortcutNodes shortcutEdges)).done ∧
    longestFromSource shortcutNodes shortcutEdges 3 "C" = 2 ∧
    LayoutBfs.depthAt shortcutNodes shortcutEdges "C" = 1 := by
  decide

/-- C5: the validator accumulates one error per violation without stopping —
on the three-violation document (duplicate id, invalid type, missing
integration target) it returns exactly those three errors — while a
non-object root, or a root whose `services` field is not an array, yields
exactly one error and no item-level checks; the validator is a total
function of the parsed value (it never throws). -/
theorem C5_validator_accumulation (j : Json) :
    (j.isObjectLike = false →
      validateServiceSchema j = [⟨"/", "Root must be a JSON object."⟩]) ∧
    (j.isObjectLike = true → (∀ svcs, j.getField "services" ≠ some (.arr svcs)) →
      validateServiceSchema j = [⟨"/services", "\"services\" must be an array."⟩]) ∧
    validateServiceSchema docThreeViolations =
      [⟨"/services[1]/id", "Duplicate service id \"a\"."⟩,
       ⟨"/services[1]/type",
        "Invalid type \"bogus\". Valid types: spring-boot, nodejs, mongodb, kafka, redis, postgresql, external."⟩,
       ⟨"/services[1]/integrations[0]/target",
        "\"target\" is required and must be a string."⟩] := by
  refine ⟨?_, ?_, by rfl⟩
  · intro h
    unfold validateServiceSchema
    rw [if_pos]
    simp [h]
  · intro h hs
    unfold validateServiceSchema
    rw [if_neg]
    · split
      · next svcs heq => exact absurd heq (hs svcs)
      · rfl
    · simp [h]

/-- C5 (witness): concrete instances of both hard-stop branches. -/
theorem C5_witness :
    validateServiceSchema (Json.num 3) = [⟨"/", "Root must be a JSON object."⟩] ∧
    validateServiceSchema (Json.obj []) =
      [⟨"/services", "\"services\" must be an array."⟩] :=
  ⟨(C5_validator_accumulation (Json.num 3)).1 rfl,
   (C5_validator_accumulation (Json.obj [])).2.1 rfl
     (by intro svcs h; simp [Json.getField] at h)⟩

/-- C6: for every graph state and node id, `removeNode` removes in the same
operation every edge whose source or target equals the id, and the React
Flow `onNodesChange` cascade removes every edge referencing a removed id:
the resulting edge list never contains a dangling edge. -/
theorem C6_delete_cascades (s : GraphState) (nodeId : String)
    (removedIds : List String) (edges : List GraphEdge) :
    (((removeNode s nodeId).edges.all
        (fun e => ¬(e.source = nodeId ∨ e.target = nodeId))) = true) ∧
    (((cascadeEdgeRemoval removedIds edges).all
        (fun e => ¬(removedIds.contains e.source ∨ removedIds.contains e.target))) = true) := by
  constructor
  · simp only [removeNode, List.all_eq_true, List.mem_filter, decide_eq_true_eq]
    tauto
  · simp only [cascadeEdgeRemoval, List.all_eq_true, List.mem_filter, decide_eq_true_eq]
    tauto

/-- C8: `addEdge` implements the strict duplicate policy — when some
existing edge connects the unordered pair in either direction, the edge list
is returned unchanged; otherwise exactly one new edge from source to target
is appended. -/
theorem C8_addEdge_strict_policy (edges : List GraphEdge) (source target : String)
    (ty : Option IntegrationTypeKey) (newId : String) :
    ((∃ e ∈ edges, (e.source = source ∧ e.target = target) ∨
        (e.source = target ∧ e.target = source)) →
      addEdge edges source target ty newId = edges) ∧
    ((¬ ∃ e ∈ edges, (e.source = source ∧ e.target = target) ∨
        (e.source = target ∧ e.target = source)) →
      addEdge edges source target ty newId =
        edges ++ [{ id := newId, source := source, target := target, type := ty,
                    label := some "" }]) := by
  unfold addEdge
  constructor
  · intro h
    rw [if_pos]
    simpa [List.any_eq_true] using h
  · intro h
    rw [if_neg]
    simpa [List.any_eq_true] using h

/-- Inversion for `Except` bind. -/
theorem except_bind_ok {ε α β : Type} (a : Except ε α) (f : α → Except ε β) (c : β)
    (h : (a >>= f) = .ok c) : ∃ b, a = .ok b ∧ f b = .ok c := by
  cases a with
  | error e => simp [Bind.bind, Except.bind] at h
  | ok b => exact ⟨b, rfl, by simpa [Bind.bind, Except.bind] using h⟩

/-- Every edge built from a service's integrations carries that service's id
as its source. -/
theorem buildIntegrations_source (svcId : String) (ctr : Nat) (items : List Json)
    (es : List GraphEdge) (h : buildIntegrations svcId ctr items = .ok es) :
    ∀ e ∈ es, e.source = svcId := by
  induction items generalizing ctr es with
  | nil =>
    simp only [buildIntegrations] at h
    cases h
    simp
  | cons integ rest ih =>
    simp only [buildIntegrations] at h
    split at h
    · exact absurd h (by simp)
    · split at h
      · exact absurd h (by simp)
      · next tgt _ =>
        split at h
        · exact absurd h (by simp)
        · obtain ⟨restEdges, hrec, h2⟩ := except_bind_ok _ _ _ h
          simp only [Except.ok.injEq] at h2
          subst h2
          intro e he
          rcases List.mem_cons.mp he with h1 | h2
          · subst h1; rfl
          · exact ih (ctr + 1) restEdges hrec e h2

/-- Every edge built by the service-schema construction loop has a source
that is the id of one of the constructed nodes. -/
theorem buildServices_edge_sources (svcs : List Json) (i ctr : Nat)
    (ns : List GraphNode) (es : List GraphEdge)
    (h : buildServices i ctr svcs = .ok (ns, es)) :
    ∀ e ∈ es, e.source ∈ ns.map GraphNode.id := by
  induction svcs generalizing i ctr ns es with
  | nil =>
    simp only [buildServices] at h
    cases h
    simp
  | cons svc rest ih =>
    simp only [buildServices] at h
    split at h
    · exact absurd h (by simp)
    · split at h
      · exact absurd h (by simp)
      · next id _ =>
        split at h
        · exact absurd h (by simp)
        · next nm _ =>
          split at h
          · exact absurd h (by simp)
          · next ty hty =>
            split at h
            · next items hitems =>
              obtain ⟨svcEdges, hse, h2⟩ := except_bind_ok _ _ _ h
              obtain ⟨p, hrec, h3⟩ := except_bind_ok _ _ _ h2
              obtain ⟨restNodes, restEdges⟩ := p
              simp only [Except.ok.injEq, Prod.mk.injEq] at h3
              obtain ⟨hns, hes⟩ := h3
              subst hns
              subst hes
              intro e he
              simp only [List.map_cons, List.mem_cons]
              rcases List.mem_append.mp he with h1 | h2
              · exact Or.inl (buildIntegrations_source _ _ _ _ hse e h1)
              · exact Or.inr (by
                  simpa using ih (i + 1) (ctr + svcEdges.length) restNodes restEdges hrec e h2)
            · obtain ⟨svcEdges, hse, h2⟩ := except_bind_ok _ _ _ h
              obtain ⟨p, hrec, h3⟩ := except_bind_ok _ _ _ h2
              obtain ⟨restNodes, restEdges⟩ := p
              simp only [Except.ok.injEq, Prod.mk.injEq] at h3
              obtain ⟨hns, hes⟩ := h3
              subst hns
              subst hes
              cases hse
              intro e he
              simp only [List.nil_append] at he
              simp only [List.map_cons, List.mem_cons]
              exact Or.inr (by
                simpa using ih (i + 1) (ctr + List.length []) restNodes restEdges hrec e he)

/-- On success, every edge produced by the service-schema importer has a
source equal to the id of some returned node. -/
theorem importCore_edge_sources (j : Json) (r : ImportResult)
    (h : importServiceSchemaCore j = .ok r) :
    ∀ e ∈ r.edges, e.source ∈ r.nodes.map GraphNode.id := by
  simp only [importServiceSchemaCore] at h
  split at h
  · split at h
    · next svcs heq =>
      cases hb : buildServices 0 0 svcs with
      | error m => rw [hb] at h; simp [Except.map] at h
      | ok p =>
        rw [hb] at h
        obtain ⟨ns, es⟩ := p
        simp only [Except.map, Except.ok.injEq] at h
        subst h
        exact buildServices_edge_sources svcs 0 0 ns es hb
    · exact absurd h (by simp)
  · exact absurd h (by simp)

/-- C3 (counterexample): the document whose single integration targets
`missing-id` — an id matching no service — does not fail: the import
succeeds and the returned result contains an edge whose target equals no
returned node's id, so a dangling reference persists after import. -/
theorem C3_dangling_import_succeeds :
    importServiceSchema docDangling =
      .ok ⟨[{ id := "a", name := "A", type := .nodejs, x := 60, y := 60 }],
           [{ id := "e-import-0", source := "a", target := "missing-id" }]⟩ ∧
    ((([{ id := "a", name := "A", type := .nodejs, x := 60, y := 60 }] : List GraphNode)).all
        (fun n => n.id ≠ "missing-id")) = true :=
  ⟨by rfl, by decide⟩

/-- C3 (amended): `importServiceSchema` validates only edge sources
implicitly — on success every returned edge's source equals the id of some
returned node — while integration targets are copied verbatim without any
existence check: a document whose integration targets a nonexistent id
imports successfully, yielding a dangling edge. -/
theorem C3_sources_valid_targets_unchecked (j : Json) (r : ImportResult)
    (h : importServiceSchemaCore j = .ok r) :
    (∀ e ∈ r.edges, e.source ∈ r.nodes.map GraphNode.id) ∧
    importServiceSchemaCore docDangling =
      .ok ⟨[{ id := "a", name := "A", type := .nodejs, x := 0, y := 0 }],
           [{ id := "e-import-0", source := "a", target := "missing-id" }]⟩ :=
  ⟨importCore_edge_sources j r h, by rfl⟩

/-- C3 (witness): the theorem applied to the spec's example import. -/
theorem C3_witness : ("b" : String) ∈ (["a", "b"] : List String) := by
  exact (C3_sources_valid_targets_unchecked docExample
    ⟨[{ id := "a", name := "A", type := .redis, x := 0, y := 0 },
      { id := "b", name := "B", type := .nodejs, x := 0, y := 0 }],
     [{ id := "e-import-0", source := "b", target := "a", type := some .cache }]⟩
    (by rfl)).1
    { id := "e-import-0", source := "b", target := "a", type := some .cache }
    (List.mem_singleton.mpr rfl)

/-- Registry round trip for node-type keys. -/
theorem nodeTypeKey_ofKey_key (t : NodeTypeKey) : NodeTypeKey.ofKey t.key = some t := by
  cases t <;> rfl

/-- Registry round trip for integration-type keys. -/
theorem integTypeKey_ofKey_key (t : IntegrationTypeKey) :
    IntegrationTypeKey.ofKey t.key = some t := by
  cases t <;> rfl

/-- Re-importing a serialized node reproduces it exactly, except that the
unserialized `width`/`height` overrides come back absent. -/
theorem nodeOf_nodeToJson (i : Nat) (n : GraphNode) (hid : n.id ≠ "") (hname : n.name ≠ "") :
    nodeOfSchemaExport i (nodeToJson n) = .ok { n with width := none, height := none } := by
  unfold nodeOfSchemaExport nodeToJson
  simp only [Json.isNull, Json.getField, List.lookup, reqString, optString, asNum]
  norm_num [hid, hname, nodeTypeKey_ofKey_key]
  cases hns : n.ns <;>
    simp [hns] <;> rw [if_neg hname] <;> simp [nodeTypeKey_ofKey_key]

/-- Re-importing a serialized edge reproduces it exactly. -/
theorem edgeOf_edgeToJson (i : Nat) (e : GraphEdge)
    (hid : e.id ≠ "") (hs : e.source ≠ "") (ht : e.target ≠ "") :
    edgeOfSchemaExport i (edgeToJson e) = .ok e := by
  unfold edgeOfSchemaExport edgeToJson
  simp only [Json.isNull, Json.getField, List.lookup, reqString, optString]
  norm_num [hid, hs, ht]
  cases hty : e.type <;> cases hl : e.label <;>
    simp [hty, hl, integTypeKey_ofKey_key] <;>
    rw [if_neg hs, if_neg ht] <;>
    simp [← hty, ← hl]

/-- An indexed fallible map over a mapped list succeeds pointwise. -/
theorem mapIdxE_map_ok {α β : Type} (f : Nat → Json → Except String α) (g : β → Json)
    (fn : β → α) (l : List β) (hp : ∀ i b, b ∈ l → f i (g b) = .ok (fn b)) :
    ∀ i, mapIdxE f i (l.map g) = .ok (l.map fn) := by
  induction l with
  | nil => intro i; rfl
  | cons b rest ih =>
    intro i
    simp only [List.map_cons, mapIdxE, hp i b (List.mem_cons_self b rest)]
    rw [ih (fun k c hc => hp k c (List.mem_cons_of_mem b hc)) (i + 1)]
    rfl

/-- C4 (amended): re-importing a flat-snapshot export reproduces the node
and edge arrays field-for-field (ids, names, types, namespaces, positions,
labels; the unserialized `width`/`height` overrides come back absent),
ignoring the `version`/`exportedAt` wrapper — provided every node id and
name and every edge id, source, and target is a non-empty string (JS
truthiness makes an empty string fail the import's required-field checks). -/
theorem C4_round_trip (ts : String) (nodes : List GraphNode) (edges : List GraphEdge)
    (hn : ∀ n ∈ nodes, n.id ≠ "" ∧ n.name ≠ "")
    (he : ∀ e ∈ edges, e.id ≠ "" ∧ e.source ≠ "" ∧ e.target ≠ "") :
    importSchemaExport (toSchemaExport ts nodes edges) =
      .ok ⟨nodes.map (fun n => { n with width := none, height := none }), edges⟩ := by
  have h1 : (toSchemaExport ts nodes edges).isObjectLike = true := rfl
  have h2 : (toSchemaExport ts nodes edges).getField "nodes" =
      some (.arr (nodes.map nodeToJson)) := rfl
  have h3 : (toSchemaExport ts nodes edges).getField "edges" =
      some (.arr (edges.map edgeToJson)) := rfl
  simp only [importSchemaExport, h1, h2, h3]
  rw [mapIdxE_map_ok nodeOfSchemaExport nodeToJson
        (fun n => { n with width := none, height := none }) nodes
        (fun i n hn2 => nodeOf_nodeToJson i n (hn n hn2).1 (hn n hn2).2) 0]
  rw [mapIdxE_map_ok edgeOfSchemaExport edgeToJson id edges
        (fun i e he2 => by
          simpa using edgeOf_edgeToJson i e (he e he2).1 (he e he2).2.1 (he e he2).2.2) 0]
  simp [Bind.bind, Except.bind]

/-- C4 (counterexample): a node list containing a node with an empty-string
id round-trips to an import failure, not to the original arrays — the claim
does not hold for every node list. -/
theorem C4_empty_id_fails :
    importSchemaExport (toSchemaExport "2024-01-01T00:00:00.000Z" [emptyIdNode] []) =
      .error "Node at index 0: missing \"id\"." := by rfl

/-- C4 (witness): a concrete round trip with all optional fields present. -/
theorem C4_witness :
    importSchemaExport (toSchemaExport "2024-01-01T00:00:00.000Z" snapNodes snapEdges) =
      .ok ⟨snapNodes.map (fun n => { n with width := none, height := none }), snapEdges⟩ :=
  C4_round_trip "2024-01-01T00:00:00.000Z" snapNodes snapEdges (by decide) (by decide)

/-- C8 (witness): a reversed duplicate is rejected; on an empty list the
edge is appended. -/
theorem C8_addEdge_witness :
    addEdge [mkEdge "e" "a" "b"] "b" "a" none "z" = [mkEdge "e" "a" "b"] ∧
    addEdge [] "a" "b" none "z" =
      [{ id := "z", source := "a", target := "b", type := none, label := some "" }] :=
  ⟨(C8_addEdge_strict_policy [mkEdge "e" "a" "b"] "b" "a" none "z").1
      ⟨mkEdge "e" "a" "b", List.mem_singleton.mpr rfl, Or.inr ⟨rfl, rfl⟩⟩,
   (C8_addEdge_strict_policy [] "a" "b" none "z").2
      (by rintro ⟨e, he, _⟩; exact absurd he (List.not_mem_nil e))⟩

/-- A fallible indexed map fails whenever some element always fails. -/
theorem mapIdxE_error_of_mem {α : Type} (f : Nat → Json → Except String α)
    (l : List Json) (j : Json) (hj : j ∈ l)
    (hf : ∀ k, ∃ msg, f k j = .error msg) :
    ∀ i, ∃ msg, mapIdxE f i l = .error msg := by
  induction l with
  | nil => cases hj
  | cons b rest ih =>
    intro i
    rcases List.mem_cons.mp hj with h1 | h2
    · subst h1
      obtain ⟨msg, hmsg⟩ := hf i
      exact ⟨msg, by simp [mapIdxE, hmsg, Bind.bind, Except.bind]⟩
    · cases hb : f i b with
      | error m => exact ⟨m, by simp [mapIdxE, hb, Bind.bind, Except.bind]⟩
      | ok a =>
        obtain ⟨msg, hmsg⟩ := ih h2 (i + 1)
        exact ⟨msg, by simp [mapIdxE, hb, hmsg, Bind.bind, Except.bind]⟩

/-- C7: `importSchemaExport` requires of every node entry a truthy string id
and name and numeric x and y (a successful conversion returns exactly those
values); a node with an id and name but missing x or y fails with an error
naming that node's id, and any such always-failing entry fails the whole
import; a node type that is missing or not a registry key is coerced to the
`external` sentinel; an edge type that is not a registry key is dropped to
absent, silently — the edge conversion succeeds whenever id, source and
target are present. -/
theorem C7_flat_snapshot_checks :
    (∀ (i : Nat) (j : Json) (id : String),
      reqString (j.getField "id") = some id →
      (reqString (j.getField "name")).isSome →
      ((asNum (j.getField "x")).isNone ∨ (asNum (j.getField "y")).isNone) →
      nodeOfSchemaExport i j = .error ("Node \"" ++ id ++ "\": missing x/y coordinates.")) ∧
    (∀ (data : Json) (ns : List Json) (j : Json),
      data.getField "nodes" = some (.arr ns) → j ∈ ns →
      (∀ k, ∃ msg, nodeOfSchemaExport k j = .error msg) →
      ∃ msg, importSchemaExport data = .error msg) ∧
    (∀ (i : Nat) (j : Json) (gn : GraphNode),
      nodeOfSchemaExport i j = .ok gn →
      reqString (j.getField "id") = some gn.id ∧
      reqString (j.getField "name") = some gn.name ∧
      asNum (j.getField "x") = some gn.x ∧
      asNum (j.getField "y") = some gn.y ∧
      gn.type = (match j.getField "type" with
        | some (.str s) => (NodeTypeKey.ofKey s).getD .external
        | _ => .external)) ∧
    (∀ (i : Nat) (j : Json) (ge : GraphEdge),
      edgeOfSchemaExport i j = .ok ge →
      ge.type = (match j.getField "type" with
        | some (.str s) => IntegrationTypeKey.ofKey s
        | _ => none)) ∧
    (∀ (i : Nat) (j : Json),
      (reqString (j.getField "id")).isSome →
      (reqString (j.getField "source")).isSome →
      (reqString (j.getField "target")).isSome →
      ∃ ge, edgeOfSchemaExport i j = .ok ge) := by
  refine ⟨?_, ?_, ?_, ?_, ?_⟩
  · intro i j id hid hname hxy
    have hnn : j.isNull = false := by
      cases j <;> simp_all [Json.isNull, Json.getField, reqString]
    unfold nodeOfSchemaExport
    rw [hnn]
    simp only [Bool.false_eq_true, if_false, hid]
    obtain ⟨nm, hnm⟩ := Option.isSome_iff_exists.mp hname
    rw [hnm]
    rcases hxy with hx | hy
    · rw [Option.isNone_iff_eq_none.mp hx]
    · cases hxv : asNum (j.getField "x") with
      | none => rfl
      | some xv => rw [Option.isNone_iff_eq_none.mp hy]
  · intro data ns j hnodes hj hfail
    have hobj : data.isObjectLike = true := by
      cases data <;> simp_all [Json.isObjectLike, Json.getField]
    unfold importSchemaExport
    rw [hobj, hnodes]
    simp only [Bool.true_eq_false, if_true]
    cases hedges : data.getField "edges" with
    | none => exact ⟨_, rfl⟩
    | some v =>
      cases v with
      | arr es =>
        obtain ⟨msg, hmsg⟩ := mapIdxE_error_of_mem nodeOfSchemaExport ns j hj hfail 0
        exact ⟨msg, by simp [hmsg, Bind.bind, Except.bind]⟩
      | null => exact ⟨_, rfl⟩
      | bool b => exact ⟨_, rfl⟩
      | num n => exact ⟨_, rfl⟩
      | str s => exact ⟨_, rfl⟩
      | obj fs => exact ⟨_, rfl⟩
  · intro i j gn h
    unfold nodeOfSchemaExport at h
    split at h
    · exact absurd h (by simp)
    · split at h
      · exact absurd h (by simp)
      · next id hid =>
        split at h
        · exact absurd h (by simp)
        · next nm hnm =>
          split at h
          · next x y hx hy =>
            simp only [Except.ok.injEq] at h
            subst h
            exact ⟨hid, hnm, hx, hy, rfl⟩
          · exact absurd h (by simp)
  · intro i j ge h
    unfold edgeOfSchemaExport at h
    split at h
    · exact absurd h (by simp)
    · split at h
      · exact absurd h (by simp)
      · split at h
        · exact absurd h (by simp)
        · split at h
          · exact absurd h (by simp)
          · simp only [Except.ok.injEq] at h
            subst h
            rfl
  · intro i j hid hs ht
    have hnn : j.isNull = false := by
      cases j <;> simp_all [Json.isNull, Json.getField, reqString]
    unfold edgeOfSchemaExport
    rw [hnn]
    obtain ⟨idv, hidv⟩ := Option.isSome_iff_exists.mp hid
    obtain ⟨sv, hsv⟩ := Option.isSome_iff_exists.mp hs
    obtain ⟨tv, htv⟩ := Option.isSome_iff_exists.mp ht
    rw [hidv, hsv, htv]
    exact ⟨_, rfl⟩

/-- Every string in `validEdgeTypes` is a registry key. -/
theorem edgeKey_isSome_of_mem (s : String) (h : s ∈ validEdgeTypes) :
    (IntegrationTypeKey.ofKey s).isSome = true := by
  fin_cases h <;> rfl

/-- Every string in `validNodeTypes` is a registry key. -/
theorem nodeKey_isSome_of_mem (s : String) (h : s ∈ validNodeTypes) :
    (NodeTypeKey.ofKey s).isSome = true := by
  fin_cases h <;> rfl

/-- Success of an `Except` computation, as an existential. -/
theorem isOkE_iff {α : Type} (e : Except String α) :
    isOkE e = true ↔ ∃ a, e = .ok a := by
  cases e <;> simp [isOkE]

/-- Inversion for the required-string check. -/
theorem reqString_eq_some (o : Option Json) (s : String) (h : reqString o = some s) :
    o = some (.str s) ∧ s ≠ "" := by
  cases o with
  | none => simp [reqString] at h
  | some v =>
    cases v with
    | str s0 =>
      simp only [reqString] at h
      split at h
      · cases h
      · next hne =>
        obtain rfl : s0 = s := by simpa using h
        exact ⟨rfl, hne⟩
    | null => simp [reqString] at h
    | bool b => simp [reqString] at h
    | num n => simp [reqString] at h
    | arr l => simp [reqString] at h
    | obj fs => simp [reqString] at h

/-- A validated integrations array builds without error. -/
theorem buildIntegrations_ok_of_valid (svcId path : String) (items : List Json) (jdx : Nat)
    (hv : validateIntegrations path jdx items = []) :
    ∀ ctr, isOkE (buildIntegrations svcId ctr items) = true := by
  induction items generalizing jdx with
  | nil => intro ctr; rfl
  | cons integ rest ih =>
    intro ctr
    simp only [validateIntegrations, List.append_eq_nil] at hv
    obtain ⟨h1, h2⟩ := hv
    simp only [validateIntegration] at h1
    split at h1
    · exact absurd h1 (by simp)
    · next hobj =>
      simp only [List.append_eq_nil] at h1
      obtain ⟨⟨htgt, hty⟩, hlb⟩ := h1
      have hnn : integ.isNull = false := by
        cases integ <;> simp_all [Json.isObjectLike, Json.isNull]
      obtain ⟨es, hes⟩ := (isOkE_iff _).mp (ih (jdx + 1) h2 (ctr + 1))
      unfold buildIntegrations
      rw [hnn]
      simp only [Bool.false_eq_true, if_false]
      cases htv : reqString (integ.getField "target") with
      | none => rw [htv] at htgt; simp at htgt
      | some tgt =>
        have hcond : ¬ (((integ.getField "type").map Json.truthy).getD false = true ∧
            (match integ.getField "type" with
              | some (.str s) => IntegrationTypeKey.ofKey s
              | _ => none).isNone = true) := by
          cases hty2 : integ.getField "type" with
          | none => simp
          | some t =>
            rw [hty2] at hty
            cases t with
            | str s =>
              by_cases hmem : s ∈ validEdgeTypes
              · simp only [Option.map_some, Option.getD_some]
                intro hpair
                obtain ⟨_, hno⟩ := hpair
                rw [Option.isNone_iff_eq_none] at hno
                have := edgeKey_isSome_of_mem s hmem
                rw [hno] at this
                simp at this
              · simp [hmem] at hty
            | null => simp_all
            | bool b => simp_all
            | num n => simp_all
            | arr l => simp_all
            | obj fs => simp_all
        split
        · next hc => simp at hc
        · rw [hes]
          rw [if_neg hcond]
          rfl

/-- A validated services array builds without error. -/
theorem buildServices_ok_of_valid (svcs : List Json) (i : Nat) (seen : List String)
    (hv : validateServices i seen svcs = []) :
    ∀ ctr, isOkE (buildServices i ctr svcs) = true := by
  induction svcs generalizing i seen with
  | nil => intro ctr; rfl
  | cons svc rest ih =>
    intro ctr
    simp only [validateServices] at hv
    rw [List.append_eq_nil] at hv
    obtain ⟨h1, h2⟩ := hv
    simp only [validateService] at h1
    split at h1
    · exact absurd h1 (by simp)
    · next hobj =>
      simp only [List.append_eq_nil] at h1
      obtain ⟨⟨⟨⟨hid, hname⟩, hty⟩, hns⟩, hint⟩ := h1
      have hnn : svc.isNull = false := by
        cases svc <;> simp_all [Json.isObjectLike, Json.isNull]
      unfold buildServices
      rw [hnn]
      simp only [Bool.false_eq_true, if_false]
      cases hidv : reqString (svc.getField "id") with
      | none => rw [hidv] at hid; simp at hid
      | some idv =>
        cases hnmv : reqString (svc.getField "name") with
        | none => rw [hnmv] at hname; simp at hname
        | some nmv =>
          cases htyv : reqString (svc.getField "type") with
          | none => rw [htyv] at hty; simp at hty
          | some tys =>
            rw [htyv] at hty
            have hmem : tys ∈ validNodeTypes := by
              by_contra hmem
              simp [hmem] at hty
            obtain ⟨hgf, _⟩ := reqString_eq_some _ _ htyv
            obtain ⟨k, hk⟩ := Option.isSome_iff_exists.mp (nodeKey_isSome_of_mem tys hmem)
            simp only [hgf, hk]
            revert hint
            cases hintv : svc.getField "integrations" with
            | none =>
              intro hint
              simp only [Bind.bind, Except.bind]
              obtain ⟨p, hp⟩ := (isOkE_iff _).mp
                (ih (i + 1) (validateService i seen svc).2 h2 (ctr + List.length []))
              rw [hp]
              rfl
            | some v =>
              intro hint
              cases v with
              | arr items =>
                obtain ⟨es, hes⟩ := (isOkE_iff _).mp
                  (buildIntegrations_ok_of_valid idv ("/services[" ++ toString i ++ "]")
                    items 0 hint ctr)
                simp only [Bind.bind, Except.bind, hes]
                obtain ⟨p, hp⟩ := (isOkE_iff _).mp
                  (ih (i + 1) (validateService i seen svc).2 h2 (ctr + es.length))
                rw [hp]
                rfl
              | null => simp at hint
              | bool b => simp at hint
              | num n => simp at hint
              | str s0 => simp at hint
              | obj fs => simp at hint

/-- C10: for every parsed document accepted by `validateServiceSchema`
(empty error list), the service-schema importer's construction succeeds —
none of its error branches (missing or non-string service id or name, type
not a registry key, integration missing target, integration type not a
registry key) is reachable, so the importer reaches its final layout step. -/
theorem C10_validator_implies_import (j : Json) (hv : validateServiceSchema j = []) :
    isOkE (importServiceSchemaCore j) = true := by
  have hv2 := hv
  unfold validateServiceSchema at hv2
  split at hv2
  · simp at hv2
  · revert hv2
    split
    · next svcs heq =>
      intro hv2
      simp only [importServiceSchemaCore, hv, List.isEmpty_nil, if_true, heq]
      obtain ⟨p, hp⟩ := (isOkE_iff _).mp (buildServices_ok_of_valid svcs 0 [] hv2 0)
      rw [hp]
      rfl
    · intro hv2
      simp at hv2

/-- C7 (witness): the theorem applied at concrete snapshot entries. -/
theorem C7_witness :
    nodeOfSchemaExport 0 nodeNoCoords =
      .error "Node \"n1\": missing x/y coordinates." ∧
    (∃ msg, importSchemaExport docNoCoords = .error msg) ∧
    ({ id := "n1", name := "N", type := .external, x := 1, y := 2 } : GraphNode).type =
      NodeTypeKey.external ∧
    ({ id := "e1", source := "a", target := "b" } : GraphEdge).type = none ∧
    (∃ ge, edgeOfSchemaExport 0 badTypeEdgeJson = .ok ge) := by
  refine ⟨?_, ?_, ?_, ?_, ?_⟩
  · exact C7_flat_snapshot_checks.1 0 nodeNoCoords "n1" rfl rfl (Or.inl rfl)
  · exact C7_flat_snapshot_checks.2.1 docNoCoords [nodeNoCoords] nodeNoCoords rfl
      (List.mem_singleton.mpr rfl)
      (fun k => ⟨"Node \"n1\": missing x/y coordinates.", rfl⟩)
  · exact (C7_flat_snapshot_checks.2.2.1 0 goodNodeJson _ rfl).2.2.2.2
  · exact C7_flat_snapshot_checks.2.2.2.1 0 badTypeEdgeJson _ rfl
  · exact C7_flat_snapshot_checks.2.2.2.2 0 badTypeEdgeJson rfl rfl rfl

/-- C10 (witness): the spec's example document is accepted by the validator
and imports successfully. -/
theorem C10_witness : isOkE (importServiceSchemaCore docExample) = true :=
  C10_validator_implies_import docExample (by rfl)

/-- The stable namespace insert is a permutation. -/
theorem insByNs_perm (n : GraphNode) (l : List GraphNode) : (insByNs n l).Perm (n :: l) := by
  induction l with
  | nil => exact List.Perm.refl _
  | cons m rest ih =>
    unfold insByNs
    split
    · exact List.Perm.refl _
    · exact (List.Perm.cons m ih).trans (List.Perm.swap n m rest)

/-- The namespace sort is a permutation. -/
theorem sortByNs_perm (l : List GraphNode) : (sortByNs l).Perm l := by
  induction l with
  | nil => exact List.Perm.refl _
  | cons n rest ih => exact (insByNs_perm n (sortByNs rest)).trans (List.Perm.cons n ih)

/-- The key insert is a permutation. -/
theorem insKey_perm [LinearOrder κ] (k : κ) (l : List κ) : (insKey k l).Perm (k :: l) := by
  induction l with
  | nil => exact List.Perm.refl _
  | cons m rest ih =>
    unfold insKey
    split
    · exact List.Perm.refl _
    · exact (List.Perm.cons m ih).trans (List.Perm.swap k m rest)

/-- The column-key sort is a permutation. -/
theorem sortKeys_perm [LinearOrder κ] (l : List κ) : (sortKeys l).Perm l := by
  induction l with
  | nil => exact List.Perm.refl _
  | cons k rest ih => exact (insKey_perm k (sortKeys rest)).trans (List.Perm.cons k ih)

/-- Pushing into a column group permutes to appending the element. -/
theorem gpush_vals_perm [DecidableEq κ] (cols : List (κ × List GraphNode)) (k : κ)
    (v : GraphNode) :
    ((gpush cols k v).flatMap (·.2)).Perm (cols.flatMap (·.2) ++ [v]) := by
  induction cols with
  | nil => simp [gpush]
  | cons p rest ih =>
    obtain ⟨k0, l⟩ := p
    unfold gpush
    split
    · simp only [List.flatMap_cons]
      rw [List.append_assoc, List.append_assoc]
      exact List.Perm.append_left l List.perm_append_comm
    · simp only [List.flatMap_cons]
      rw [List.append_assoc]
      exact List.Perm.append_left l ih

/-- Grouping nodes into columns preserves them as a multiset. -/
theorem groupFold_vals_perm [DecidableEq κ] (f : GraphNode → κ) (nodes : List GraphNode) :
    ∀ cols, ((nodes.foldl (fun cs n => gpush cs (f n) n) cols).flatMap (·.2)).Perm
      (cols.flatMap (·.2) ++ nodes) := by
  induction nodes with
  | nil => intro cols; simp
  | cons n rest ih =>
    intro cols
    simp only [List.foldl_cons]
    refine (ih (gpush cols (f n) n)).trans ?_
    have h2 := (gpush_vals_perm cols (f n) n).append_right rest
    refine h2.trans ?_
    rw [List.append_assoc]
    exact List.Perm.refl _

/-- Pushing into a column group adds the key only when it is new. -/
theorem gpush_keys [DecidableEq κ] (cols : List (κ × List GraphNode)) (k : κ) (v : GraphNode) :
    (gpush cols k v).map (·.1) =
      if k ∈ cols.map (·.1) then cols.map (·.1) else cols.map (·.1) ++ [k] := by
  induction cols with
  | nil => simp [gpush]
  | cons p rest ih =>
    obtain ⟨k0, l⟩ := p
    unfold gpush
    by_cases hk : k0 = k
    · subst hk
      simp
    · rw [if_neg hk]
      simp only [List.map_cons, ih]
      by_cases hmem : k ∈ rest.map (·.1)
      · simp [hmem, Ne.symm hk]
      · simp [hmem, Ne.symm hk]

/-- Pushing into a column group keeps the keys duplicate-free. -/
theorem gpush_keys_nodup [DecidableEq κ] (cols : List (κ × List GraphNode)) (k : κ)
    (v : GraphNode) (h : (cols.map (·.1)).Nodup) : ((gpush cols k v).map (·.1)).Nodup := by
  rw [gpush_keys]
  split
  · exact h
  · next hmem => simp [List.nodup_append, h, hmem]

/-- The column map built by grouping has duplicate-free keys. -/
theorem groupFold_keys_nodup [DecidableEq κ] (f : GraphNode → κ) (nodes : List GraphNode) :
    ∀ cols, (cols.map (·.1)).Nodup →
      ((nodes.foldl (fun cs n => gpush cs (f n) n) cols).map (·.1)).Nodup := by
  induction nodes with
  | nil => intro cols h; exact h
  | cons n rest ih =>
    intro cols h
    exact ih (gpush cols (f n) n) (gpush_keys_nodup cols (f n) n h)

/-- Iterating a duplicate-free association list by its own keys visits each stored value once. -/
theorem keys_flatMap_aget [DecidableEq κ] (cols : List (κ × List GraphNode))
    (h : (cols.map (·.1)).Nodup) (g : List GraphNode → List GraphNode) :
    (cols.map (·.1)).flatMap (fun k => g ((aget cols k).getD [])) =
      cols.flatMap (fun p => g p.2) := by
  induction cols with
  | nil => rfl
  | cons p rest ih =>
    obtain ⟨k0, l⟩ := p
    simp only [List.map_cons, List.nodup_cons] at h
    obtain ⟨hk0, hrest⟩ := h
    simp only [List.map_cons, List.flatMap_cons, aget, if_pos rfl, Option.getD_some]
    congr 1
    have hagree : ∀ k ∈ rest.map (·.1),
        (aget ((k0, l) :: rest) k).getD [] = (aget rest k).getD [] := by
      intro k hk
      have : k0 ≠ k := fun he => hk0 (he ▸ hk)
      simp [aget, this]
    calc (rest.map (·.1)).flatMap (fun k => g ((aget ((k0, l) :: rest) k).getD []))
        = (rest.map (·.1)).flatMap (fun k => g ((aget rest k).getD [])) := by
          exact List.flatMap_congr (fun x hx => by rw [hagree x hx])
      _ = rest.flatMap (fun p => g p.2) := ih hrest

/-- Placing a column changes only x and y (first-visit revision). -/
theorem placeColumn_strip_bfs (x : Int) (l : List GraphNode) :
    ∀ y, (LayoutBfs.placeColumn x y l).map stripPos = l.map stripPos := by
  induction l with
  | nil => intro y; rfl
  | cons n rest ih =>
    intro y
    simp only [LayoutBfs.placeColumn, List.map_cons, ih]
    rfl

/-- Placing the columns changes only x and y (first-visit revision). -/
theorem placeColumns_strip_bfs (cols : List (Nat × List GraphNode)) (ks : List Nat) :
    ∀ xOff, (LayoutBfs.placeColumns cols ks xOff).map stripPos =
      ks.flatMap (fun k => ((aget cols k).getD []).map stripPos) := by
  induction ks with
  | nil => intro x; rfl
  | cons k rest ih =>
    intro x
    simp only [LayoutBfs.placeColumns, List.map_append, List.flatMap_cons,
      placeColumn_strip_bfs, ih]

/-- Placing a column changes only x and y (relaxation revision). -/
theorem placeColumn_strip_relax (x : Int) (l : List GraphNode) :
    ∀ row, (LayoutRelax.placeColumn x row l).map stripPos = l.map stripPos := by
  induction l with
  | nil => intro r; rfl
  | cons n rest ih =>
    intro r
    simp only [LayoutRelax.placeColumn, List.map_cons, ih]
    rfl

/-- Placing the columns changes only x and y (relaxation revision). -/
theorem placeColumns_strip_relax (cols : List (Int × List GraphNode)) (ks : List Int) :
    (LayoutRelax.placeColumns cols ks).map stripPos =
      ks.flatMap (fun k => ((aget cols k).getD []).map stripPos) := by
  induction ks with
  | nil => rfl
  | cons k rest ih =>
    simp only [LayoutRelax.placeColumns, List.map_append, List.flatMap_cons,
      placeColumn_strip_relax, ih]

/-- Grouping by depth, sorting each column, and iterating the columns in any key order is a permutation of the nodes. -/
theorem grouped_flatMap_perm [DecidableEq κ] (dep : GraphNode → κ)
    (nodes : List GraphNode) (sk : List κ)
    (hsk : sk.Perm ((nodes.foldl (fun cs n => gpush cs (dep n) n) []).map
      (fun p => (p.1, sortByNs p.2)) |>.map (·.1))) :
    (sk.flatMap (fun k =>
        ((aget ((nodes.foldl (fun cs n => gpush cs (dep n) n) []).map
          (fun p => (p.1, sortByNs p.2))) k).getD []).map stripPos)).Perm
      (nodes.map stripPos) := by
  set c1 := nodes.foldl (fun cs n => gpush cs (dep n) n) [] with hc1
  set c2 := c1.map (fun p => (p.1, sortByNs p.2)) with hc2
  have hkeys : c2.map (·.1) = c1.map (·.1) := by
    rw [hc2, List.map_map]
    rfl
  have hnodup1 : (c1.map (·.1)).Nodup := by
    rw [hc1]
    exact groupFold_keys_nodup dep nodes [] (by simp)
  have hnodup2 : (c2.map (·.1)).Nodup := by rw [hkeys]; exact hnodup1
  refine (hsk.flatMap_right _).trans ?_
  have hB : (c2.map (·.1)).flatMap (fun k => ((aget c2 k).getD []).map stripPos) =
      c2.flatMap (fun p => p.2.map stripPos) :=
    keys_flatMap_aget c2 hnodup2 (fun l => l.map stripPos)
  rw [hB, hc2, List.flatMap_map]
  refine (List.Perm.flatMap_left c1
      (fun p _ => (sortByNs_perm p.2).map stripPos)).trans ?_
  rw [← List.map_flatMap]
  have hF := groupFold_vals_perm dep nodes []
  simp only [List.flatMap_nil, List.nil_append] at hF
  exact (hF.map stripPos)

/-- C9: for every input, both revisions of `computeLayout` return a node
array that is a permutation of the input array with only the `x` and `y`
fields changed — id, name, type, namespace and the width/height overrides
are untouched, and each input node occurs exactly once (for the relaxation
revision, whatever the loop fuel). -/
theorem C9_layout_frame (nodes : List GraphNode) (edges : List GraphEdge) (fuel : Nat) :
    ((LayoutBfs.computeLayout nodes edges).map stripPos).Perm (nodes.map stripPos) ∧
    ((LayoutRelax.computeLayoutFuel fuel nodes edges).map stripPos).Perm
      (nodes.map stripPos) := by
  constructor
  · unfold LayoutBfs.computeLayout
    split
    · next h =>
      rw [List.isEmpty_iff.mp h]
    · rw [placeColumns_strip_bfs]
      exact grouped_flatMap_perm (fun n => LayoutBfs.depthAt nodes edges n.id) nodes _
        (sortKeys_perm _)
  · unfold LayoutRelax.computeLayoutFuel
    split
    · next h =>
      rw [List.isEmpty_iff.mp h]
    · rw [placeColumns_strip_relax]
      exact grouped_flatMap_perm
        (fun n => (aget (LayoutRelax.depthMapFuel fuel nodes edges) n.id).getD 0) nodes _
        (sortKeys_perm _)

/-- JS `Map.set` followed by `Map.get`. -/
theorem aget_aset [DecidableEq κ] (d : List (κ × α)) (k : κ) (v : α) (k' : κ) :
    aget (aset d k v) k' = if k = k' then some v else aget d k' := by
  induction d with
  | nil =>
    by_cases h : k = k' <;> simp [aset, aget, h]
  | cons p rest ih =>
    obtain ⟨k0, v0⟩ := p
    by_cases h0 : k0 = k
    · subst h0
      by_cases h : k0 = k' <;> simp [aset, aget, h]
    · by_cases h : k0 = k'
      · subst h
        have hk : ¬ k = k0 := fun hh => h0 hh.symm
        simp [aset, aget, h0, hk]
      · simp [aset, aget, h0, h, ih]

/-- Appending to a stored adjacency list, observed through `Map.get`. -/
theorem aget_apush [DecidableEq κ] (m : List (κ × List α)) (k : κ) (v : α) (k' : κ) :
    aget (apush m k v) k' =
      if k = k' then (aget m k').map (· ++ [v]) else aget m k' := by
  induction m with
  | nil =>
    by_cases h : k = k' <;> simp [apush, aget, h]
  | cons p rest ih =>
    obtain ⟨k0, l0⟩ := p
    by_cases h0 : k0 = k
    · subst h0
      by_cases h : k0 = k' <;> simp [apush, aget, h]
    · by_cases h : k0 = k'
      · subst h
        have hk : ¬ k = k0 := fun hh => h0 hh.symm
        simp [apush, aget, h0, hk]
      · simp [apush, aget, h0, h, ih]

/-- Assigning a depth never increases the unassigned potential. -/
theorem unassigned_aset_le (T : List String) (d : List (String × Nat)) (t : String)
    (v : Nat) : unassigned T (aset d t v) ≤ unassigned T d := by
  apply List.countP_mono_left
  intro a _ ha
  by_cases h : t = a
  · rw [aget_aset, if_pos h] at ha
    simp at ha
  · rwa [aget_aset, if_neg h] at ha

/-- Assigning a depth to an unassigned listed target strictly decreases the potential. -/
theorem unassigned_aset_lt (T : List String) (d : List (String × Nat)) (t : String)
    (v : Nat) (hmem : t ∈ T) (hnone : aget d t = none) :
    unassigned T (aset d t v) + 1 ≤ unassigned T d := by
  induction T with
  | nil => cases hmem
  | cons u rest ih =>
    simp only [unassigned, List.countP_cons] at *
    by_cases hu : u = t
    · subst hu
      rw [aget_aset, if_pos rfl]
      have := unassigned_aset_le rest d u v
      simp only [unassigned] at this
      simp [hnone]
      omega
    · have hmem2 : t ∈ rest := by
        rcases List.mem_cons.mp hmem with h | h
        · exact absurd h.symm hu
        · exact h
      have hrec := ih hmem2
      have hcond : ¬ t = u := fun hh => hu hh.symm
      rw [aget_aset, if_neg hcond]
      omega

/-- Processing a frontier node's targets never increases queue length plus potential. -/
theorem visit_bound (T : List String) (cd : Nat) (ts : List String) :
    ∀ q d, (∀ t ∈ ts, t ∈ T) →
      (LayoutBfs.visit cd ts q d).1.length +
        unassigned T (LayoutBfs.visit cd ts q d).2 ≤ q.length + unassigned T d := by
  induction ts with
  | nil => intro q d _; simp [LayoutBfs.visit]
  | cons t rest ih =>
    intro q d hsub
    simp only [LayoutBfs.visit]
    split
    · exact ih q d (fun x hx => hsub x (List.mem_cons_of_mem t hx))
    · next hnone =>
      have h1 := ih (q ++ [t]) (aset d t (cd + 1))
        (fun x hx => hsub x (List.mem_cons_of_mem t hx))
      have h2 : unassigned T (aset d t (cd + 1)) + 1 ≤ unassigned T d :=
        unassigned_aset_lt T d t (cd + 1) (hsub t (List.mem_cons_self t rest))
          (Option.not_isSome_iff_eq_none.mp (by simpa using hnone))
      have h3 : (q ++ [t]).length = q.length + 1 := by simp
      omega

/-- Every stored adjacency target is among the map's targets. -/
theorem aget_mem_outTargets (out : List (String × List String)) (k : String)
    (l : List String) (h : aget out k = some l) : ∀ t ∈ l, t ∈ outTargets out := by
  induction out with
  | nil => cases h
  | cons p rest ih =>
    obtain ⟨k0, l0⟩ := p
    simp only [aget] at h
    simp only [outTargets, List.flatMap_cons]
    split at h
    · cases h
      intro t ht
      exact List.mem_append_left _ ht
    · intro t ht
      exact List.mem_append_right _ (by simpa [outTargets] using ih h t ht)

/-- The BFS loop peels steps from the outside as well. -/
theorem bfs_run_succ (out : List (String × List String)) (n : Nat) (s : LayoutBfs.State) :
    LayoutBfs.run out (n + 1) s = LayoutBfs.step out (LayoutBfs.run out n s) := by
  induction n generalizing s with
  | zero => rfl
  | succ k ih =>
    show LayoutBfs.run out (k + 1) (LayoutBfs.step out s) = _
    rw [ih]
    rfl

/-- A finished BFS state is a fixed point of the loop body. -/
theorem bfs_step_done_fix (out : List (String × List String)) (s : LayoutBfs.State)
    (hd : s.done) : LayoutBfs.step out s = s := by
  unfold LayoutBfs.step
  rw [dif_neg]
  simp only [LayoutBfs.State.done] at hd
  omega

/-- One BFS step advances the cursor and never increases queue length plus potential. -/
theorem bfs_step_bound (nodes : List GraphNode) (edges : List GraphEdge)
    (s : LayoutBfs.State) (hnd : ¬ s.done) :
    (LayoutBfs.step (buildOutgoing nodes edges) s).head = s.head + 1 ∧
    (LayoutBfs.step (buildOutgoing nodes edges) s).queue.length +
        unassigned (outTargets (buildOutgoing nodes edges))
          (LayoutBfs.step (buildOutgoing nodes edges) s).depth ≤
      s.queue.length +
        unassigned (outTargets (buildOutgoing nodes edges)) s.depth := by
  have h : s.head < s.queue.length := by
    simp only [LayoutBfs.State.done] at hnd
    omega
  set out := buildOutgoing nodes edges with hout
  set cur := s.queue.get ⟨s.head, h⟩ with hcur
  set cd := (aget s.depth cur).getD 0 with hcd
  set ts := (aget out cur).getD [] with hts
  have hstep : LayoutBfs.step out s =
      ⟨(LayoutBfs.visit cd ts s.queue s.depth).1, s.head + 1,
        (LayoutBfs.visit cd ts s.queue s.depth).2⟩ := by
    unfold LayoutBfs.step
    rw [dif_pos h]
  have hsub : ∀ t ∈ ts, t ∈ outTargets out := by
    rw [hts]
    cases haget : aget out cur with
    | none => simp
    | some l =>
      simpa using aget_mem_outTargets out cur l haget
  refine ⟨by rw [hstep], ?_⟩
  rw [hstep]
  exact visit_bound (outTargets out) cd ts s.queue s.depth hsub

/-- After n BFS steps the loop is either done or its cursor is at n with the bound intact. -/
theorem bfs_run_cases (nodes : List GraphNode) (edges : List GraphEdge) : ∀ n,
    (LayoutBfs.run (buildOutgoing nodes edges) n (LayoutBfs.initState nodes edges)).done ∨
    (¬ (LayoutBfs.run (buildOutgoing nodes edges) n (LayoutBfs.initState nodes edges)).done ∧
      (LayoutBfs.run (buildOutgoing nodes edges) n (LayoutBfs.initState nodes edges)).head = n ∧
      (LayoutBfs.run (buildOutgoing nodes edges) n
          (LayoutBfs.initState nodes edges)).queue.length +
        unassigned (outTargets (buildOutgoing nodes edges))
          (LayoutBfs.run (buildOutgoing nodes edges) n
            (LayoutBfs.initState nodes edges)).depth ≤
      (LayoutBfs.initState nodes edges).queue.length +
        unassigned (outTargets (buildOutgoing nodes edges))
          (LayoutBfs.initState nodes edges).depth) := by
  intro n
  induction n with
  | zero =>
    by_cases hd : (LayoutBfs.run (buildOutgoing nodes edges) 0
        (LayoutBfs.initState nodes edges)).done
    · exact Or.inl hd
    · exact Or.inr ⟨hd, rfl, Nat.le_refl _⟩
  | succ k ih =>
    rw [bfs_run_succ]
    rcases ih with hd | ⟨hnd, hh, hb⟩
    · rw [bfs_step_done_fix _ _ hd]
      exact Or.inl hd
    · obtain ⟨hh2, hb2⟩ := bfs_step_bound nodes edges _ hnd
      by_cases hd2 : (LayoutBfs.step (buildOutgoing nodes edges)
          (LayoutBfs.run (buildOutgoing nodes edges) k
            (LayoutBfs.initState nodes edges))).done
      · exact Or.inl hd2
      · exact Or.inr ⟨hd2, by rw [hh2, hh], Nat.le_trans hb2 hb⟩

/-- The summed adjacency-list lengths equal the length of the flattened target list. -/
theorem foldr_lengths (out : List (String × List String)) :
    (out.map (·.2)).foldr (fun l acc => l.length + acc) 0 = (outTargets out).length := by
  induction out with
  | nil => rfl
  | cons p rest ih =>
    simp only [List.map_cons, List.foldr_cons, outTargets, List.flatMap_cons,
      List.length_append, ih]

/-- The BFS while loop of the first-visit revision exhausts its queue within the fuel bound, on every input. -/
theorem bfs_loop_done (nodes : List GraphNode) (edges : List GraphEdge) :
    (LayoutBfs.run (buildOutgoing nodes edges) (LayoutBfs.fuelBound nodes edges)
      (LayoutBfs.initState nodes edges)).done := by
  rcases bfs_run_cases nodes edges (LayoutBfs.fuelBound nodes edges) with h | ⟨hnd, hh, hb⟩
  · exact h
  · exfalso
    have hlt : (LayoutBfs.run (buildOutgoing nodes edges) (LayoutBfs.fuelBound nodes edges)
        (LayoutBfs.initState nodes edges)).head <
        (LayoutBfs.run (buildOutgoing nodes edges) (LayoutBfs.fuelBound nodes edges)
          (LayoutBfs.initState nodes edges)).queue.length := by
      simp only [LayoutBfs.State.done] at hnd
      omega
    have hM0 : unassigned (outTargets (buildOutgoing nodes edges))
        (LayoutBfs.initState nodes edges).depth ≤
        (outTargets (buildOutgoing nodes edges)).length :=
      List.countP_le_length _
    have hN : LayoutBfs.fuelBound nodes edges =
        (LayoutBfs.initState nodes edges).queue.length +
          (outTargets (buildOutgoing nodes edges)).length := by
      unfold LayoutBfs.fuelBound
      rw [foldr_lengths]
    omega

/-- Seeding the adjacency map preserves an existing empty entry. -/
theorem aget_nodefold_preserve (nodes : List GraphNode) (k : String) :
    ∀ m : List (String × List String), aget m k = some [] →
      aget (nodes.foldl (fun m n => aset m n.id []) m) k = some [] := by
  induction nodes with
  | nil => intro m h; exact h
  | cons n rest ih =>
    intro m h
    apply ih
    rw [aget_aset]
    split
    · rfl
    · exact h

/-- Seeding the adjacency map gives every node id an empty entry. -/
theorem aget_nodefold_mem (nodes : List GraphNode) (k : String)
    (hk : k ∈ nodes.map (·.id)) :
    ∀ m : List (String × List String),
      aget (nodes.foldl (fun m n => aset m n.id []) m) k = some [] := by
  induction nodes with
  | nil => cases hk
  | cons n rest ih =>
    intro m
    by_cases hr : k ∈ rest.map (·.id)
    · exact ih hr _
    · have hkn : n.id = k := by
        rcases List.mem_cons.mp hk with h | h
        · exact h.symm
        · exact absurd h hr
      simp only [List.foldl_cons]
      apply aget_nodefold_preserve
      rw [aget_aset, if_pos hkn]

/-- Seeding the adjacency map leaves non-node keys untouched. -/
theorem aget_nodefold_not_mem (nodes : List GraphNode) (k : String)
    (hk : k ∉ nodes.map (·.id)) :
    ∀ m : List (String × List String),
      aget (nodes.foldl (fun m n => aset m n.id []) m) k = aget m k := by
  induction nodes with
  | nil => intro m; rfl
  | cons n rest ih =>
    intro m
    have hk2 : k ∉ rest.map (·.id) := fun h => hk (List.mem_cons_of_mem _ h)
    have hkn : ¬ n.id = k := fun h => hk (by simp [← h])
    simp only [List.foldl_cons, ih hk2]
    rw [aget_aset, if_neg hkn]

/-- A freshly seeded adjacency entry is absent or empty. -/
theorem aget_base_none_or_nil (nodes : List GraphNode) (k : String) :
    aget (nodes.foldl (fun m n => aset m n.id [])
        ([] : List (String × List String))) k = none ∨
      aget (nodes.foldl (fun m n => aset m n.id [])
        ([] : List (String × List String))) k = some [] := by
  by_cases hk : k ∈ nodes.map (·.id)
  · exact Or.inr (aget_nodefold_mem nodes k hk [])
  · rw [aget_nodefold_not_mem nodes k hk []]
    exact Or.inl rfl

/-- Every target stored by the edge fold comes from the seed or from an edge with the matching source. -/
theorem aget_pushfold_mem (edges : List GraphEdge) (k : String) :
    ∀ (m : List (String × List String)) (l : List String),
      aget (edges.foldl (fun m e => apush m e.source e.target) m) k = some l →
      ∀ t ∈ l, (∃ l0, aget m k = some l0 ∧ t ∈ l0) ∨
        ∃ e ∈ edges, e.source = k ∧ e.target = t := by
  induction edges with
  | nil =>
    intro m l h t ht
    exact Or.inl ⟨l, h, ht⟩
  | cons e rest ih =>
    intro m l h t ht
    simp only [List.foldl_cons] at h
    rcases ih (apush m e.source e.target) l h t ht with ⟨l0, hl0, ht0⟩ | ⟨e2, he2, hk2⟩
    · by_cases hke : e.source = k
      · rw [aget_apush, if_pos hke] at hl0
        cases hm : aget m k with
        | none => rw [hm] at hl0; cases hl0
        | some lm =>
          rw [hm] at hl0
          simp only [Option.map_some', Option.some.injEq] at hl0
          subst hl0
          rcases List.mem_append.mp ht0 with h1 | h1
          · exact Or.inl ⟨lm, rfl, h1⟩
          · simp only [List.mem_singleton] at h1
            exact Or.inr ⟨e, List.mem_cons_self e rest, hke, h1.symm⟩
      · rw [aget_apush, if_neg hke] at hl0
        exact Or.inl ⟨l0, hl0, ht0⟩
    · exact Or.inr ⟨e2, List.mem_cons_of_mem e he2, hk2⟩

/-- Every outgoing-adjacency target of a key is the target of an edge with that source. -/
theorem outgoing_target_edge (nodes : List GraphNode) (edges : List GraphEdge)
    (cur t : String)
    (ht : t ∈ (aget (buildOutgoing nodes edges) cur).getD []) :
    ∃ e ∈ edges, e.source = cur ∧ e.target = t := by
  rw [buildOutgoing] at ht
  cases haget : aget (edges.foldl (fun m e => apush m e.source e.target)
      (nodes.foldl (fun m n => aset m n.id []) [])) cur with
  | none => rw [haget] at ht; cases ht
  | some l =>
    rw [haget] at ht
    simp only [Option.getD_some] at ht
    rcases aget_pushfold_mem edges cur _ l haget t ht with ⟨l0, hl0, ht0⟩ | h
    · rcases aget_base_none_or_nil nodes cur with h0 | h0
      · rw [h0] at hl0; cases hl0
      · rw [h0] at hl0
        cases hl0
        cases ht0
    · exact h

/-- The edge fold only grows stored lists, strictly when some edge hits the key. -/
theorem aget_apushfold_grow (key val : GraphEdge → String) (edges : List GraphEdge)
    (k : String) :
    ∀ (m : List (String × List String)) (l₀ : List String), aget m k = some l₀ →
      ∃ l, aget (edges.foldl (fun m e => apush m (key e) (val e)) m) k = some l ∧
        l₀.length ≤ l.length ∧ ((∃ e ∈ edges, key e = k) → l₀.length < l.length) := by
  induction edges with
  | nil =>
    intro m l₀ h
    exact ⟨l₀, h, Nat.le_refl _, by rintro ⟨e, he, _⟩; cases he⟩
  | cons e rest ih =>
    intro m l₀ h
    by_cases hke : key e = k
    · have h2 : aget (apush m (key e) (val e)) k = some (l₀ ++ [val e]) := by
        rw [aget_apush, if_pos hke, h]
        rfl
      obtain ⟨l, hl, hlen, _⟩ := ih (apush m (key e) (val e)) (l₀ ++ [val e]) h2
      refine ⟨l, hl, ?_, fun _ => ?_⟩ <;> simp at hlen ⊢ <;> omega
    · have h2 : aget (apush m (key e) (val e)) k = some l₀ := by
        rw [aget_apush, if_neg hke]
        exact h
      obtain ⟨l, hl, hlen, hstrict⟩ := ih (apush m (key e) (val e)) l₀ h2
      refine ⟨l, hl, hlen, ?_⟩
      rintro ⟨e2, he2, hk2⟩
      rcases List.mem_cons.mp he2 with h3 | h3
      · exact absurd (h3 ▸ hk2) hke
      · exact hstrict ⟨e2, h3, hk2⟩

/-- A node selected as a source has no incoming edge. -/
theorem sourceNodes_no_incoming (nodes : List GraphNode) (edges : List GraphEdge)
    (n : GraphNode) (hn : n ∈ sourceNodes nodes edges) :
    n ∈ nodes ∧ ∀ e ∈ edges, e.target ≠ n.id := by
  rw [sourceNodes, List.mem_filter] at hn
  obtain ⟨hmem, hempty⟩ := hn
  refine ⟨hmem, fun e he ht => ?_⟩
  have hbase : aget (nodes.foldl (fun m n => aset m n.id []) []) n.id = some [] :=
    aget_nodefold_mem nodes n.id (List.mem_map_of_mem (·.id) hmem) []
  obtain ⟨l, hl, _, hstrict⟩ :=
    aget_apushfold_grow (·.target) (·.source) edges n.id _ [] hbase
  have hlen : 0 < l.length := hstrict ⟨e, he, ht⟩
  rw [buildIncoming] at hempty
  rw [hl] at hempty
  simp only [Option.getD_some] at hempty
  cases l with
  | nil => simp at hlen
  | cons a rest => simp at hempty

/-- Visiting reachable targets keeps every queued id and depth key reachable. -/
theorem bfs_visit_reach (nodes : List GraphNode) (edges : List GraphEdge) (cd : Nat)
    (ts : List String) :
    ∀ q d, (∀ t ∈ ts, ReachesFromSource nodes edges t) →
      (∀ id ∈ q, ReachesFromSource nodes edges id) →
      (∀ id v, aget d id = some v → ReachesFromSource nodes edges id) →
      (∀ id ∈ (LayoutBfs.visit cd ts q d).1, ReachesFromSource nodes edges id) ∧
      (∀ id v, aget (LayoutBfs.visit cd ts q d).2 id = some v →
        ReachesFromSource nodes edges id) := by
  induction ts with
  | nil =>
    intro q d _ hq hd
    exact ⟨hq, hd⟩
  | cons t rest ih =>
    intro q d hts hq hd
    simp only [LayoutBfs.visit]
    split
    · exact ih q d (fun x hx => hts x (List.mem_cons_of_mem t hx)) hq hd
    · refine ih (q ++ [t]) (aset d t (cd + 1))
        (fun x hx => hts x (List.mem_cons_of_mem t hx)) ?_ ?_
      · intro id hid
        rcases List.mem_append.mp hid with h1 | h1
        · exact hq id h1
        · simp only [List.mem_singleton] at h1
          exact h1 ▸ hts t (List.mem_cons_self t rest)
      · intro id v hv
        rw [aget_aset] at hv
        split at hv
        · next heq => exact heq ▸ hts t (List.mem_cons_self t rest)
        · exact hd id v hv

/-- One BFS step keeps every queued id and depth key reachable. -/
theorem bfs_step_reach (nodes : List GraphNode) (edges : List GraphEdge)
    (s : LayoutBfs.State)
    (hq : ∀ id ∈ s.queue, ReachesFromSource nodes edges id)
    (hd : ∀ id v, aget s.depth id = some v → ReachesFromSource nodes edges id) :
    (∀ id ∈ (LayoutBfs.step (buildOutgoing nodes edges) s).queue,
      ReachesFromSource nodes edges id) ∧
    (∀ id v, aget (LayoutBfs.step (buildOutgoing nodes edges) s).depth id = some v →
      ReachesFromSource nodes edges id) := by
  by_cases h : s.head < s.queue.length
  · have hstep : LayoutBfs.step (buildOutgoing nodes edges) s =
        ⟨(LayoutBfs.visit ((aget s.depth (s.queue.get ⟨s.head, h⟩)).getD 0)
            ((aget (buildOutgoing nodes edges) (s.queue.get ⟨s.head, h⟩)).getD [])
            s.queue s.depth).1, s.head + 1,
          (LayoutBfs.visit ((aget s.depth (s.queue.get ⟨s.head, h⟩)).getD 0)
            ((aget (buildOutgoing nodes edges) (s.queue.get ⟨s.head, h⟩)).getD [])
            s.queue s.depth).2⟩ := by
      unfold LayoutBfs.step
      rw [dif_pos h]
    have hcur : ReachesFromSource nodes edges (s.queue.get ⟨s.head, h⟩) :=
      hq _ (s.queue.get_mem _ _)
    have hts : ∀ t ∈ (aget (buildOutgoing nodes edges)
        (s.queue.get ⟨s.head, h⟩)).getD [], ReachesFromSource nodes edges t := by
      intro t ht
      obtain ⟨e, he, hsrc, htgt⟩ := outgoing_target_edge nodes edges _ t ht
      exact htgt ▸ ReachesFromSource.step e he (hsrc ▸ hcur)
    rw [hstep]
    exact bfs_visit_reach nodes edges _ _ s.queue s.depth hts hq hd
  · have hstep : LayoutBfs.step (buildOutgoing nodes edges) s = s := by
      unfold LayoutBfs.step
      rw [dif_neg h]
    rw [hstep]
    exact ⟨hq, hd⟩

/-- Any number of BFS steps keeps every depth key reachable. -/
theorem bfs_run_reach (nodes : List GraphNode) (edges : List GraphEdge) (n : Nat) :
    ∀ s : LayoutBfs.State,
      (∀ id ∈ s.queue, ReachesFromSource nodes edges id) →
      (∀ id v, aget s.depth id = some v → ReachesFromSource nodes edges id) →
      (∀ id v, aget (LayoutBfs.run (buildOutgoing nodes edges) n s).depth id = some v →
        ReachesFromSource nodes edges id) := by
  induction n with
  | zero => intro s _ hd; exact hd
  | succ k ih =>
    intro s hq hd
    obtain ⟨hq2, hd2⟩ := bfs_step_reach nodes edges s hq hd
    exact ih (LayoutBfs.step (buildOutgoing nodes edges) s) hq2 hd2

/-- Every initially queued id is reachable from a zero-incoming-edge node. -/
theorem init_queue_reach (nodes : List GraphNode) (edges : List GraphEdge) :
    ∀ id ∈ (LayoutBfs.initState nodes edges).queue, ReachesFromSource nodes edges id := by
  intro id hid
  simp only [LayoutBfs.initState, List.mem_map] at hid
  obtain ⟨n, hn, rfl⟩ := hid
  obtain ⟨hmem, hni⟩ := sourceNodes_no_incoming nodes edges n hn
  exact ReachesFromSource.source n hmem hni

/-- Every initially assigned id is reachable from a zero-incoming-edge node. -/
theorem init_depth_reach (nodes : List GraphNode) (edges : List GraphEdge) :
    ∀ id v, aget (LayoutBfs.initState nodes edges).depth id = some v →
      ReachesFromSource nodes edges id := by
  have main : ∀ (srcs : List GraphNode) (d0 : List (String × Nat)) id v,
      aget (srcs.foldl (fun d n => aset d n.id 0) d0) id = some v →
      id ∈ srcs.map (·.id) ∨ aget d0 id = some v := by
    intro srcs
    induction srcs with
    | nil => intro d0 id v h; exact Or.inr h
    | cons n rest ih =>
      intro d0 id v h
      simp only [List.foldl_cons] at h
      rcases ih (aset d0 n.id 0) id v h with h1 | h1
      · exact Or.inl (List.mem_cons_of_mem _ h1)
      · rw [aget_aset] at h1
        split at h1
        · next heq => exact Or.inl (by simp [← heq])
        · exact Or.inr h1
  intro id v h
  simp only [LayoutBfs.initState] at h
  rcases main (sourceNodes nodes edges) [] id v h with h1 | h1
  · simp only [List.mem_map] at h1
    obtain ⟨n, hn, rfl⟩ := h1
    obtain ⟨hmem, hni⟩ := sourceNodes_no_incoming nodes edges n hn
    exact ReachesFromSource.source n hmem hni
  · cases h1

/-- A node unreachable from every zero-incoming-edge node keeps the fallback depth 0. -/
theorem depthAt_zero_of_unreachable (nodes : List GraphNode) (edges : List GraphEdge)
    (id : String) (h : ¬ ReachesFromSource nodes edges id) :
    LayoutBfs.depthAt nodes edges id = 0 := by
  have hfinal : aget (LayoutBfs.run (buildOutgoing nodes edges)
      (LayoutBfs.fuelBound nodes edges) (LayoutBfs.initState nodes edges)).depth id =
      none := by
    cases hv : aget (LayoutBfs.run (buildOutgoing nodes edges)
        (LayoutBfs.fuelBound nodes edges) (LayoutBfs.initState nodes edges)).depth id with
    | none => rfl
    | some v =>
      exact absurd (bfs_run_reach nodes edges (LayoutBfs.fuelBound nodes edges)
        (LayoutBfs.initState nodes edges) (init_queue_reach nodes edges)
        (init_depth_reach nodes edges) id v hv) h
  have fallback : ∀ (ns : List GraphNode) (d0 : List (String × Nat)),
      (aget d0 id = none ∨ aget d0 id = some 0) →
      (aget (ns.foldl (fun d n => if (aget d n.id).isSome then d else aset d n.id 0) d0)
          id = none ∨
        aget (ns.foldl (fun d n => if (aget d n.id).isSome then d else aset d n.id 0) d0)
          id = some 0) := by
    intro ns
    induction ns with
    | nil => intro d0 h0; exact h0
    | cons n rest ih =>
      intro d0 h0
      simp only [List.foldl_cons]
      apply ih
      by_cases hs : (aget d0 n.id).isSome
      · rw [if_pos hs]
        exact h0
      · rw [if_neg hs, aget_aset]
        split
        · exact Or.inr rfl
        · exact h0
  unfold LayoutBfs.depthAt LayoutBfs.depthMap
  rcases fallback nodes _ (Or.inl hfinal) with h1 | h1 <;> rw [h1] <;> rfl

/-- No id is reachable from a zero-incoming-edge node in the two-node cycle. -/
theorem cycle_unreachable : ∀ id, ¬ ReachesFromSource cycleNodes cycleEdges id := by
  intro id h
  induction h with
  | source n hn hs =>
    fin_cases hn
    · exact hs (mkEdge "e2" "B" "A") (by simp [cycleEdges]) rfl
    · exact hs (mkEdge "e1" "A" "B") (by simp [cycleEdges]) rfl
  | step e he hr ih => exact ih

/-- C2 (amended): the first-visit BFS revision of `computeLayout` terminates
for every finite node list and edge list, cycles included — its worklist
loop exhausts the queue within `fuelBound` iterations — and every node
unreachable from a zero-incoming-edge node (isolated, or in a cycle with no
external entry) is assigned depth 0, the leftmost column; the relaxation
revision does not terminate on every input (see its counterexample). -/
theorem C2_bfs_terminates_unreachable_zero (nodes : List GraphNode) (edges : List GraphEdge) (id : String)
    (h : ¬ ReachesFromSource nodes edges id) :
    (LayoutBfs.run (buildOutgoing nodes edges) (LayoutBfs.fuelBound nodes edges)
      (LayoutBfs.initState nodes edges)).done ∧
    LayoutBfs.depthAt nodes edges id = 0 :=
  ⟨bfs_loop_done nodes edges, depthAt_zero_of_unreachable nodes edges id h⟩

/-- C2 (witness): on the two-node cycle, no node is reachable from a
zero-incoming-edge node, the loop still finishes, and node A sits in the
leftmost column. -/
theorem C2_witness :
    (¬ ReachesFromSource cycleNodes cycleEdges "A") ∧
    ((LayoutBfs.run (buildOutgoing cycleNodes cycleEdges)
        (LayoutBfs.fuelBound cycleNodes cycleEdges)
        (LayoutBfs.initState cycleNodes cycleEdges)).done ∧
      LayoutBfs.depthAt cycleNodes cycleEdges "A" = 0) :=
  ⟨cycle_unreachable "A",
   C2_bfs_terminates_unreachable_zero cycleNodes cycleEdges "A" (cycle_unreachable "A")⟩

end ServiceMap
